import Mathlib

/-!
# Maze treasure game server: embedding and verified properties

A shallow embedding of the server of the multiplayer maze game
(`server.cpp`, `common.h`, the `UDPServer` part of `udp_helper.h`) and of the
frame handlers of its client (`client.cpp`).

Modelling conventions.

* C++ `int` is `Int`. Signed overflow is undefined in C++; coordinates stay
  within one step of the 10x10 grid and identities and scores only count
  joins and pickups, so no property below depends on wrap-around.
* `std::map<int, T>` is a list of `(key, value)` entries kept in ascending
  key order: `mapFind` is `find`, `mapSet` is `m[k] = v`, `mapErase` is
  `erase(k)`, and iteration is the list order.
* `std::chrono::steady_clock::time_point` is the integer tick count of the
  clock; `TICKS_PER_SECOND` ticks make one second.
* A text frame is kept as its sequence of whitespace separated tokens; a
  number printed with `std::to_string` or `operator<<` is an integer token.
* Every `udpServer.sendMessage(client, text)` call is one `Datagram`;
  `broadcastMessage` is one such call per entry of the client map.
* The two values a step may read from its environment are arguments:
  `now`, the value of `steady_clock::now()`, and `rnd`, the value returned by
  `generateRandomPosition()` if the step calls it.
* The two server threads take turns: a run is a sequence of whole steps, each
  a processed frame or one inactivity sweep.
-/

namespace MazeGame

/-! ## common.h -/

/-- Tick count of `std::chrono::steady_clock`. -/
abbrev TimePoint := Int

/-- Ticks of `steady_clock` per second (its period is one nanosecond). -/
def TICKS_PER_SECOND : Int := 1000000000

def GAME_DURATION_SECONDS : Int := 60

def INACTIVITY_TIMEOUT_SECONDS : Int := 10

def MAZE_WIDTH : Int := 10

def MAZE_HEIGHT : Int := 10

inductive Direction where
  | UP
  | DOWN
  | LEFT
  | RIGHT
  deriving DecidableEq, Repr

/-- Convert string to Direction; any unrecognised string is `DOWN`. -/
def stringToDirection (dir : String) : Direction :=
  if dir = "UP" ∨ dir = "W" ∨ dir = "w" then Direction.UP
  else if dir = "DOWN" ∨ dir = "S" ∨ dir = "s" then Direction.DOWN
  else if dir = "LEFT" ∨ dir = "A" ∨ dir = "a" then Direction.LEFT
  else if dir = "RIGHT" ∨ dir = "D" ∨ dir = "d" then Direction.RIGHT
  else Direction.DOWN

structure Player where
  id : Int
  username : String
  x : Int
  y : Int
  score : Int
  lastActivity : TimePoint
  deriving DecidableEq, Repr

/-- The constructor `Player(_id, _username, _x, _y)`: score 0, activity now. -/
def Player.create (now : TimePoint) (id : Int) (username : String) (x y : Int) : Player :=
  { id := id, username := username, x := x, y := y, score := 0, lastActivity := now }

structure Position where
  x : Int
  y : Int
  deriving DecidableEq, Repr

/-! ## udp_helper.h -/

/-- Peer address (`sockaddr_in`: address and port) with the player it serves. -/
structure ClientInfo where
  addr : Nat
  port : Nat
  playerId : Int
  deriving DecidableEq, Repr

/-- One token of a text frame. -/
inductive Tok where
  | word (s : String)
  | num (n : Int)
  deriving DecidableEq, Repr

abbrev Frame := List Tok

/-- One `sendMessage` call: the receiving peer and the frame. -/
abbrev Datagram := ClientInfo × Frame

/-- Lookup `m.find(k)`: the value stored under `k`, if any. -/
def mapFind {α : Type} (k : Int) : List (Int × α) → Option α
  | [] => none
  | (k', v) :: rest => if k' = k then some v else mapFind k rest

/-- Assignment `m[k] = v` on a map in ascending key order. -/
def mapSet {α : Type} (k : Int) (v : α) : List (Int × α) → List (Int × α)
  | [] => [(k, v)]
  | (k', v') :: rest =>
    if k < k' then (k, v) :: (k', v') :: rest
    else if k = k' then (k, v) :: rest
    else (k', v') :: mapSet k v rest

/-- Removal `m.erase(k)`. -/
def mapErase {α : Type} (k : Int) (m : List (Int × α)) : List (Int × α) :=
  m.filter (fun e => decide (e.1 ≠ k))

/-- The keys of a map, in iteration order. -/
def mapKeys {α : Type} (m : List (Int × α)) : List Int :=
  m.map Prod.fst

/-- The client map's `registerClient`. -/
def registerClient (clients : List (Int × ClientInfo)) (playerId : Int) (c : ClientInfo) :
    List (Int × ClientInfo) :=
  mapSet playerId c clients

/-- The client map's `getClient`; `none` is the null pointer. -/
def getClient (clients : List (Int × ClientInfo)) (playerId : Int) : Option ClientInfo :=
  mapFind playerId clients

/-- The client map's `removeClient`. -/
def removeClient (clients : List (Int × ClientInfo)) (playerId : Int) :
    List (Int × ClientInfo) :=
  mapErase playerId clients

/-- The sends of `broadcastMessage`: one per client, in map order. -/
def broadcastMessage (clients : List (Int × ClientInfo)) (message : Frame) : List Datagram :=
  clients.map (fun e => (e.2, message))

/-- The guarded send `if (clientInfo) sendMessage(*clientInfo, message)`. -/
def sendIfBound (client : Option ClientInfo) (message : Frame) : List Datagram :=
  match client with
  | some clientInfo => [(clientInfo, message)]
  | none => []

/-! ## server.h / server.cpp -/

structure GameServer where
  clients : List (Int × ClientInfo)
  running : Bool
  players : List (Int × Player)
  nextPlayerId : Int
  treasure : Position
  gameStartTime : TimePoint
  deriving DecidableEq, Repr

/-- The constructor: no players, first identity 1, a random treasure. -/
def GameServer.create (rnd : Position) : GameServer :=
  { clients := [], running := false, players := [], nextPlayerId := 1,
    treasure := rnd, gameStartTime := 0 }

/-- The state in which `start` enters its two loops. -/
def GameServer.start (s : GameServer) (now : TimePoint) : GameServer :=
  { s with running := true, gameStartTime := now }

/-- A position is inside the grid. -/
def isValidMove (x y : Int) : Bool :=
  decide (x ≥ 1) && decide (x ≤ MAZE_WIDTH) && decide (y ≥ 1) && decide (y ≤ MAZE_HEIGHT)

/-- The candidate position of a move: one axis changes by one. -/
def candidate (x y : Int) : Direction → Int × Int
  | Direction.UP => (x, y - 1)
  | Direction.DOWN => (x, y + 1)
  | Direction.LEFT => (x - 1, y)
  | Direction.RIGHT => (x + 1, y)

def posMsg (p : Player) : Frame :=
  [Tok.word "POS", Tok.num p.id, Tok.num p.x, Tok.num p.y]

def collectMsg (p : Player) : Frame :=
  [Tok.word "COLLECTED", Tok.num p.id, Tok.num p.score]

def treasureMsg (t : Position) : Frame :=
  [Tok.word "TREASURE", Tok.num t.x, Tok.num t.y]

def welcomeMsg (p : Player) : Frame :=
  [Tok.word "WELCOME", Tok.num p.id, Tok.num p.x, Tok.num p.y]

def kickMsg : Frame :=
  [Tok.word "KICK", Tok.word "Inactivity", Tok.word "timeout"]

def gameOverMsg (winnerId highestScore : Int) : Frame :=
  [Tok.word "GAMEOVER", Tok.num winnerId, Tok.num highestScore]

/-- The `(id, score)` pairs written by the loop of `broadcastScores`. -/
def scorePairs (players : List (Int × Player)) : List (Int × Int) :=
  players.map (fun e => (e.2.id, e.2.score))

/-- The tokens of a list of `(id, score)` pairs: `id_1 s_1 ... id_n s_n`. -/
def pairToks : List (Int × Int) → List Tok
  | [] => []
  | (i, sc) :: rest => Tok.num i :: Tok.num sc :: pairToks rest

/-- The frame built by `broadcastScores`: `SCORES`, the size, then the pairs. -/
def scoresMsg (players : List (Int × Player)) : Frame :=
  Tok.word "SCORES" :: Tok.num (players.length : Int) :: pairToks (scorePairs players)

def broadcastScores (s : GameServer) : List Datagram :=
  broadcastMessage s.clients (scoresMsg s.players)

/-- The position update of `processMove`: the candidate is stored only when
`isValidMove` accepts it. -/
def applyMove (player : Player) (dir : Direction) : Player :=
  let c := candidate player.x player.y dir
  if isValidMove c.1 c.2 then { player with x := c.1, y := c.2 } else player

/-- The body of `processMove` for a player that was found. -/
def moveFound (s : GameServer) (now : TimePoint) (rnd : Position) (playerId : Int)
    (player : Player) (dir : Direction) : GameServer × List Datagram :=
  let active : Player := { applyMove player dir with lastActivity := now }
  let posOut : List Datagram := sendIfBound (getClient s.clients active.id) (posMsg active)
  if active.x = s.treasure.x ∧ active.y = s.treasure.y then
    let scored : Player := { active with score := active.score + 1 }
    let collectOut := broadcastMessage s.clients (collectMsg scored)
    let treasureOut := broadcastMessage s.clients (treasureMsg rnd)
    let s' : GameServer :=
      { s with players := mapSet playerId scored s.players, treasure := rnd }
    (s', posOut ++ collectOut ++ treasureOut ++ broadcastScores s')
  else
    ({ s with players := mapSet playerId active s.players }, posOut)

def processMove (s : GameServer) (now : TimePoint) (rnd : Position) (playerId : Int)
    (dir : Direction) : GameServer × List Datagram :=
  match mapFind playerId s.players with
  | none => (s, [])
  | some player => moveFound s now rnd playerId player dir

/-- Whole seconds between two time points: `duration_cast<seconds>` truncates. -/
def elapsedSeconds (now earlier : TimePoint) : Int :=
  (now - earlier).tdiv TICKS_PER_SECOND

/-- The first loop of `checkInactivePlayers`: the identities to remove. -/
def playersToRemove (players : List (Int × Player)) (now : TimePoint) : List Int :=
  players.filterMap (fun e =>
    if elapsedSeconds now e.2.lastActivity > INACTIVITY_TIMEOUT_SECONDS then some e.2.id
    else none)

/-- One round of the second loop of `checkInactivePlayers`. -/
def removePlayer (acc : GameServer × List Datagram) (id : Int) : GameServer × List Datagram :=
  match getClient acc.1.clients id with
  | some clientInfo =>
    ({ acc.1 with clients := removeClient acc.1.clients id,
                  players := mapErase id acc.1.players },
     acc.2 ++ [(clientInfo, kickMsg)])
  | none => ({ acc.1 with players := mapErase id acc.1.players }, acc.2)

def checkInactivePlayers (s : GameServer) (now : TimePoint) : GameServer × List Datagram :=
  (playersToRemove s.players now).foldl removePlayer (s, [])

def isGameOver (s : GameServer) (now : TimePoint) : Bool :=
  decide (elapsedSeconds now s.gameStartTime ≥ GAME_DURATION_SECONDS)

/-- One round of the winner loop of `endGame` on `(winnerId, highestScore)`. -/
def winnerStep (acc : Int × Int) (e : Int × Player) : Int × Int :=
  if e.2.score > acc.2 then (e.2.id, e.2.score) else acc

/-- The winner loop of `endGame`, started at `(-1, -1)`. -/
def findWinner (players : List (Int × Player)) : Int × Int :=
  players.foldl winnerStep (-1, -1)

def endGame (s : GameServer) : GameServer × List Datagram :=
  let w := findWinner s.players
  ({ s with running := false }, broadcastMessage s.clients (gameOverMsg w.1 w.2))

/-- A received frame after token extraction: `JOIN` with its name, `MOVE` with
its integer and its direction string, or any other type. -/
inductive Message where
  | join (username : String)
  | move (playerId : Int) (dirStr : String)
  | other
  deriving DecidableEq, Repr

def processMessage (s : GameServer) (now : TimePoint) (rnd : Position)
    (clientInfo : ClientInfo) : Message → GameServer × List Datagram
  | Message.join username =>
    let startPos := rnd
    let newPlayer := Player.create now s.nextPlayerId username startPos.x startPos.y
    let bound : ClientInfo := { clientInfo with playerId := newPlayer.id }
    let s1 : GameServer :=
      { s with players := mapSet newPlayer.id newPlayer s.players,
               clients := registerClient s.clients newPlayer.id bound }
    ({ s1 with nextPlayerId := s.nextPlayerId + 1 },
     [(bound, welcomeMsg newPlayer), (bound, treasureMsg s.treasure)] ++ broadcastScores s1)
  | Message.move playerId dirStr =>
    processMove s now rnd playerId (stringToDirection dirStr)
  | Message.other => (s, [])

/-- One whole step of the server: a processed frame or an inactivity sweep. -/
inductive Event where
  | frame (now : TimePoint) (rnd : Position) (clientInfo : ClientInfo) (msg : Message)
  | sweep (now : TimePoint)
  deriving DecidableEq, Repr

def step (s : GameServer) : Event → GameServer × List Datagram
  | Event.frame now rnd clientInfo msg => processMessage s now rnd clientInfo msg
  | Event.sweep now => checkInactivePlayers s now

/-- Run a sequence of steps, collecting the datagrams sent in order. -/
def run (s : GameServer) : List Event → GameServer × List Datagram
  | [] => (s, [])
  | e :: es => ((run (step s e).1 es).1, (step s e).2 ++ (run (step s e).1 es).2)

/-- The server when its loops start: constructed with treasure `t0`, then
started at time `t`. -/
def initial (t0 : Position) (t : TimePoint) : GameServer :=
  (GameServer.create t0).start t

/-! ## client.cpp

The handlers read the rest of the frame after its type token. An extraction
`iss >> n` of an `int` takes the next integer token; a handler is `none` when a
token it extracts is missing or is not an integer, since what the program does
then depends on the error state of the stream. -/

structure GameClient where
  running : Bool
  username : String
  playerId : Int
  x : Int
  y : Int
  score : Int
  treasure : Position
  playerScores : List (Int × Int)
  deriving DecidableEq, Repr

def handlePositionUpdate (c : GameClient) (iss : List Tok) : Option GameClient :=
  match iss with
  | Tok.num id :: rest =>
    if id = c.playerId then
      match rest with
      | Tok.num x :: Tok.num y :: _ => some { c with x := x, y := y }
      | _ => none
    else some c
  | _ => none

def handleTreasureUpdate (c : GameClient) (iss : List Tok) : Option GameClient :=
  match iss with
  | Tok.num tx :: Tok.num ty :: _ => some { c with treasure := ⟨tx, ty⟩ }
  | _ => none

def handleCollectionUpdate (c : GameClient) (iss : List Tok) : Option GameClient :=
  match iss with
  | Tok.num id :: Tok.num newScore :: _ =>
    some { c with
      playerScores := mapSet id newScore c.playerScores,
      score := if id = c.playerId then newScore else c.score }
  | _ => none

/-- The loop of `handleScoresUpdate`, run for the given number of rounds: each
round extracts an id and a score and assigns `playerScores[id] = playerScore`. -/
def readScores : Nat → List Tok → List (Int × Int) → Option (List (Int × Int))
  | 0, _, playerScores => some playerScores
  | n + 1, Tok.num id :: Tok.num playerScore :: rest, playerScores =>
    readScores n rest (mapSet id playerScore playerScores)
  | _ + 1, _, _ => none

/-- The state change of `handleScoresUpdate`: extract the count, clear the
score map, then run the loop `for (i = 0; i < playerCount; i++)`. -/
def handleScoresUpdate (c : GameClient) (iss : List Tok) : Option GameClient :=
  match iss with
  | Tok.num playerCount :: rest =>
    match readScores playerCount.toNat rest [] with
    | some playerScores => some { c with playerScores := playerScores }
    | none => none
  | _ => none

def handleWelcome (c : GameClient) (iss : List Tok) : Option GameClient :=
  match iss with
  | Tok.num playerId :: Tok.num x :: Tok.num y :: _ =>
    some { c with playerId := playerId, x := x, y := y }
  | _ => none

def handleKick (c : GameClient) (_iss : List Tok) : Option GameClient :=
  some { c with running := false }

def handleGameOver (c : GameClient) (iss : List Tok) : Option GameClient :=
  match iss with
  | Tok.num _ :: Tok.num _ :: _ => some { c with running := false }
  | _ => none

/-- Dispatch on the type token; a frame of any other type is ignored. -/
def processServerMessage (c : GameClient) (message : Frame) : Option GameClient :=
  match message with
  | Tok.word type :: iss =>
    if type = "POS" then handlePositionUpdate c iss
    else if type = "TREASURE" then handleTreasureUpdate c iss
    else if type = "COLLECTED" then handleCollectionUpdate c iss
    else if type = "SCORES" then handleScoresUpdate c iss
    else if type = "WELCOME" then handleWelcome c iss
    else if type = "KICK" then handleKick c iss
    else if type = "GAMEOVER" then handleGameOver c iss
    else some c
  | _ => some c

/-! ## Predicates used to state the properties -/

/-- A point lies in the grid `[1, MAZE_WIDTH] x [1, MAZE_HEIGHT]`. -/
def InGrid (x y : Int) : Prop :=
  1 ≤ x ∧ x ≤ MAZE_WIDTH ∧ 1 ≤ y ∧ y ≤ MAZE_HEIGHT

instance (x y : Int) : Decidable (InGrid x y) := by
  unfold InGrid; infer_instance

/-- The random position an event hands to the server lies in the grid, as
`uniform_int_distribution(1, MAZE_WIDTH)` and `(1, MAZE_HEIGHT)` promise. -/
def Event.rndInGrid : Event → Prop
  | Event.frame _ rnd _ _ => InGrid rnd.x rnd.y
  | Event.sweep _ => True

instance (e : Event) : Decidable e.rndInGrid := by
  cases e <;> unfold Event.rndInGrid <;> infer_instance

/-- The entries of a map are in strictly ascending key order. -/
def KeysAscending {α : Type} (m : List (Int × α)) : Prop :=
  m.Pairwise (fun a b => a.1 < b.1)

instance {α : Type} (m : List (Int × α)) : Decidable (KeysAscending m) := by
  unfold KeysAscending; infer_instance

/-- The position stored for identity `id`, if it is registered. -/
def storedPos (s : GameServer) (id : Int) : Option (Int × Int) :=
  (mapFind id s.players).map (fun p => (p.x, p.y))

/-- Structural facts that hold of every state the server reaches: both maps
are in key order, every player and every binding is filed under its own
identity, the two maps have the same keys, and all keys are identities
already handed out. -/
structure WellFormed (s : GameServer) : Prop where
  playersAsc : KeysAscending s.players
  clientsAsc : KeysAscending s.clients
  playerIds : ∀ e ∈ s.players, e.2.id = e.1
  clientIds : ∀ e ∈ s.clients, e.2.playerId = e.1
  sameKeys : mapKeys s.players = mapKeys s.clients
  keysBelow : ∀ e ∈ s.players, 1 ≤ e.1 ∧ e.1 < s.nextPlayerId
  nextPos : 1 ≤ s.nextPlayerId

/-- A state the server is in after finitely many whole steps from a start. -/
def Reachable (s : GameServer) : Prop :=
  ∃ (t0 : Position) (t : TimePoint) (evs : List Event), (run (initial t0 t) evs).1 = s

/-- The event is a processed `JOIN` frame. -/
def Event.isJoin : Event → Bool
  | Event.frame _ _ _ (Message.join _) => true
  | _ => false

/-- Number of `JOIN` frames in a sequence of events. -/
def joinCount (evs : List Event) : Nat :=
  (evs.filter Event.isJoin).length

/-- The identity carried by a frame if it is a `WELCOME` frame. -/
def welcomeId : Datagram → Option Int
  | (_, Tok.word w :: Tok.num id :: _) => if w = "WELCOME" then some id else none
  | _ => none

/-- The player registered under `id` has left for good: the state is
well-formed, nobody is registered under `id`, and `id` was already handed out. -/
def Gone (id : Int) (s : GameServer) : Prop :=
  WellFormed s ∧ mapFind id s.players = none ∧ id < s.nextPlayerId

/-- The identities announced by the `WELCOME` frames of a trace, in order. -/
def welcomeIds (out : List Datagram) : List Int :=
  out.filterMap welcomeId

/-! ## Lemmas on the map operations -/

section MapLemmas

variable {α : Type}

theorem mapFind_mapSet_self (k : Int) (v : α) (m : List (Int × α)) :
    mapFind k (mapSet k v m) = some v := by
  induction m with
  | nil => simp [mapSet, mapFind]
  | cons e rest ih =>
    obtain ⟨k', v'⟩ := e
    simp only [mapSet]
    split_ifs with h1 h2
    · simp [mapFind]
    · simp [mapFind]
    · have : ¬ k' = k := fun h => h2 h.symm
      simp [mapFind, this, ih]

theorem mapFind_mapSet_ne {j k : Int} (h : j ≠ k) (v : α) (m : List (Int × α)) :
    mapFind j (mapSet k v m) = mapFind j m := by
  induction m with
  | nil => simp [mapSet, mapFind, h.symm]
  | cons e rest ih =>
    obtain ⟨k', v'⟩ := e
    simp only [mapSet]
    split_ifs with h1 h2
    · simp [mapFind, h.symm]
    · subst h2
      simp [mapFind, h.symm]
    · simp [mapFind, ih]

theorem mem_mapSet {k : Int} {v : α} {m : List (Int × α)} {e : Int × α}
    (h : e ∈ mapSet k v m) : e = (k, v) ∨ e ∈ m := by
  induction m with
  | nil => simpa [mapSet] using h
  | cons a rest ih =>
    obtain ⟨k', v'⟩ := a
    simp only [mapSet] at h
    split_ifs at h with h1 h2
    · rcases List.mem_cons.1 h with h | h
      · exact Or.inl h
      · exact Or.inr h
    · rcases List.mem_cons.1 h with h | h
      · exact Or.inl h
      · exact Or.inr (List.mem_cons_of_mem _ h)
    · rcases List.mem_cons.1 h with h | h
      · exact Or.inr (h ▸ List.mem_cons_self _ _)
      · rcases ih h with h | h
        · exact Or.inl h
        · exact Or.inr (List.mem_cons_of_mem _ h)

theorem mapFind_mem {k : Int} {v : α} {m : List (Int × α)} (h : mapFind k m = some v) :
    (k, v) ∈ m := by
  induction m with
  | nil => simp [mapFind] at h
  | cons a rest ih =>
    obtain ⟨k', v'⟩ := a
    simp only [mapFind] at h
    split_ifs at h with h1
    · simp only [Option.some.injEq] at h
      subst h1 h
      exact List.mem_cons_self _ _
    · exact List.mem_cons_of_mem _ (ih h)

theorem mapFind_eq_none_iff {k : Int} {m : List (Int × α)} :
    mapFind k m = none ↔ ∀ e ∈ m, e.1 ≠ k := by
  induction m with
  | nil => simp [mapFind]
  | cons a rest ih =>
    obtain ⟨k', v'⟩ := a
    simp only [mapFind]
    split_ifs with h1
    · simp [h1]
    · simp [ih, h1]

theorem mapFind_of_mem {k : Int} {v : α} {m : List (Int × α)} (asc : KeysAscending m)
    (h : (k, v) ∈ m) : mapFind k m = some v := by
  induction m with
  | nil => simp at h
  | cons a rest ih =>
    obtain ⟨k', v'⟩ := a
    have asc' := List.pairwise_cons.1 asc
    simp only [mapFind]
    rcases List.mem_cons.1 h with h | h
    · simp only [Prod.mk.injEq] at h
      simp [h.1, h.2]
    · have hlt : k' < k := asc'.1 _ h
      have : ¬ k' = k := by omega
      simp only [this, if_false]
      exact ih asc'.2 h

theorem keysAscending_mapSet {k : Int} {v : α} {m : List (Int × α)} (asc : KeysAscending m) :
    KeysAscending (mapSet k v m) := by
  induction m with
  | nil => simp [mapSet, KeysAscending]
  | cons a rest ih =>
    obtain ⟨k', v'⟩ := a
    have asc' := List.pairwise_cons.1 asc
    simp only [mapSet]
    split_ifs with h1 h2
    · refine List.pairwise_cons.2 ⟨?_, asc⟩
      intro e he
      rcases List.mem_cons.1 he with he | he
      · subst he; exact h1
      · have := asc'.1 e he
        simp only at this ⊢
        omega
    · subst h2
      exact List.pairwise_cons.2 ⟨asc'.1, asc'.2⟩
    · refine List.pairwise_cons.2 ⟨?_, ih asc'.2⟩
      intro e he
      rcases mem_mapSet he with he | he
      · subst he
        simp only
        omega
      · exact asc'.1 e he

theorem mapKeys_mapSet_congr {β : Type} {k : Int} (v : α) (w : β) {m : List (Int × α)}
    {n : List (Int × β)} (h : mapKeys m = mapKeys n) :
    mapKeys (mapSet k v m) = mapKeys (mapSet k w n) := by
  induction m generalizing n with
  | nil =>
    cases n with
    | nil => simp [mapSet, mapKeys]
    | cons b n' => simp [mapKeys] at h
  | cons a rest ih =>
    cases n with
    | nil => simp [mapKeys] at h
    | cons b n' =>
      obtain ⟨k1, v1⟩ := a
      obtain ⟨k2, v2⟩ := b
      simp only [mapKeys, List.map_cons, List.cons.injEq] at h
      obtain ⟨h1, h2⟩ := h
      subst h1
      have ih' := ih (n := n') h2
      simp only [mapSet]
      split_ifs with h3 h4
      · simp [mapKeys, h2]
      · simp only [mapKeys, List.map_cons, List.cons.injEq, true_and]
        exact h2
      · simp only [mapKeys, List.map_cons, List.cons.injEq, true_and]
        exact ih'

theorem mapKeys_mapSet_of_find {k : Int} {v v0 : α} {m : List (Int × α)}
    (asc : KeysAscending m) (h : mapFind k m = some v0) :
    mapKeys (mapSet k v m) = mapKeys m := by
  induction m with
  | nil => simp [mapFind] at h
  | cons a rest ih =>
    obtain ⟨k', v'⟩ := a
    have asc' := List.pairwise_cons.1 asc
    simp only [mapFind] at h
    simp only [mapSet]
    split_ifs at h with h1
    · subst h1
      simp [mapKeys]
    · have hm := asc'.1 _ (mapFind_mem h)
      simp only at hm
      have h2 : ¬ k < k' := by omega
      have h3 : ¬ k = k' := fun e => h1 e.symm
      simp only [h2, h3, if_false, mapKeys, List.map_cons, List.cons.injEq, true_and]
      exact ih asc'.2 h

theorem mapKeys_mapErase (k : Int) (m : List (Int × α)) :
    mapKeys (mapErase k m) = (mapKeys m).filter (fun j => decide (j ≠ k)) := by
  induction m with
  | nil => simp [mapErase, mapKeys]
  | cons a rest ih =>
    simp only [mapErase, mapKeys] at ih ⊢
    by_cases h : a.1 = k <;> simp_all [List.filter_cons]

theorem keysAscending_mapErase {k : Int} {m : List (Int × α)} (asc : KeysAscending m) :
    KeysAscending (mapErase k m) :=
  List.Pairwise.sublist (List.filter_sublist _) asc

theorem mem_mapErase {k : Int} {m : List (Int × α)} {e : Int × α} :
    e ∈ mapErase k m ↔ e ∈ m ∧ e.1 ≠ k := by
  simp [mapErase]

theorem mapFind_mapErase_self (k : Int) (m : List (Int × α)) :
    mapFind k (mapErase k m) = none := by
  rw [mapFind_eq_none_iff]
  intro e he
  exact (mem_mapErase.1 he).2

theorem mapFind_mapErase_ne {j k : Int} (h : j ≠ k) (m : List (Int × α)) :
    mapFind j (mapErase k m) = mapFind j m := by
  induction m with
  | nil => simp [mapErase, mapFind]
  | cons a rest ih =>
    obtain ⟨k', v'⟩ := a
    simp only [mapErase] at ih ⊢
    by_cases h1 : k' = k
    · have : ¬ k' = j := fun e => h (e.symm.trans h1)
      subst h1
      simp_all [List.filter_cons, mapFind]
    · by_cases h2 : k' = j
      · subst h2
        simp_all [List.filter_cons, mapFind]
      · simp_all [List.filter_cons, mapFind]

theorem mapErase_of_find_none {k : Int} {m : List (Int × α)} (h : mapFind k m = none) :
    mapErase k m = m := by
  rw [mapFind_eq_none_iff] at h
  simp only [mapErase]
  rw [List.filter_eq_self]
  intro e he
  simpa using h e he

theorem mapFind_of_keys_eq {β : Type} {k : Int} {m : List (Int × α)} {n : List (Int × β)}
    (h : mapKeys m = mapKeys n) : mapFind k m = none ↔ mapFind k n = none := by
  have key : ∀ (γ : Type) (l : List (Int × γ)), mapFind k l = none ↔ k ∉ mapKeys l := by
    intro γ l
    rw [mapFind_eq_none_iff]
    simp only [mapKeys, List.mem_map, not_exists, not_and]
  rw [key, key, h]

end MapLemmas

/-! ## Lemmas on the server operations -/

theorem applyMove_id (p : Player) (dir : Direction) : (applyMove p dir).id = p.id := by
  simp only [applyMove]
  split_ifs <;> rfl

theorem applyMove_score (p : Player) (dir : Direction) : (applyMove p dir).score = p.score := by
  simp only [applyMove]
  split_ifs <;> rfl

theorem isValidMove_iff (x y : Int) : isValidMove x y = true ↔ InGrid x y := by
  simp [isValidMove, InGrid, and_assoc]

theorem applyMove_inGrid {p : Player} (dir : Direction) (h : InGrid p.x p.y) :
    InGrid (applyMove p dir).x (applyMove p dir).y := by
  simp only [applyMove]
  split_ifs with hv
  · exact (isValidMove_iff _ _).1 hv
  · exact h

theorem processMove_of_find {s : GameServer} {playerId : Int} {p : Player}
    (h : mapFind playerId s.players = some p) (now : TimePoint) (rnd : Position)
    (dir : Direction) :
    processMove s now rnd playerId dir = moveFound s now rnd playerId p dir := by
  simp [processMove, h]

theorem processMove_of_none {s : GameServer} {playerId : Int}
    (h : mapFind playerId s.players = none) (now : TimePoint) (rnd : Position)
    (dir : Direction) : processMove s now rnd playerId dir = (s, []) := by
  simp [processMove, h]

/-- The state after `moveFound`: the entry of the mover is replaced, and the
treasure is replaced exactly on a pickup. -/
theorem moveFound_state (s : GameServer) (now : TimePoint) (rnd : Position) (playerId : Int)
    (p : Player) (dir : Direction) :
    ((applyMove p dir).x = s.treasure.x ∧ (applyMove p dir).y = s.treasure.y ∧
      (moveFound s now rnd playerId p dir).1 =
        { s with
          players := mapSet playerId
            { applyMove p dir with lastActivity := now, score := (applyMove p dir).score + 1 }
            s.players,
          treasure := rnd }) ∨
    (¬ ((applyMove p dir).x = s.treasure.x ∧ (applyMove p dir).y = s.treasure.y) ∧
      (moveFound s now rnd playerId p dir).1 =
        { s with
          players := mapSet playerId { applyMove p dir with lastActivity := now } s.players })
    := by
  by_cases h : (applyMove p dir).x = s.treasure.x ∧ (applyMove p dir).y = s.treasure.y
  · left
    refine ⟨h.1, h.2, ?_⟩
    simp [moveFound, h.1, h.2]
  · right
    refine ⟨h, ?_⟩
    simp only [moveFound]
    rw [if_neg h]

/-- The state after the second loop of `checkInactivePlayers`: the listed
identities are gone from both maps and nothing else changes. -/
theorem foldl_removePlayer_state (ids : List Int) (acc : GameServer × List Datagram) :
    (ids.foldl removePlayer acc).1 =
      { acc.1 with
        players := acc.1.players.filter (fun e => decide (e.1 ∉ ids)),
        clients := acc.1.clients.filter (fun e => decide (e.1 ∉ ids)) } := by
  induction ids generalizing acc with
  | nil => simp
  | cons id rest ih =>
    rw [List.foldl_cons, ih]
    have hp : (removePlayer acc id).1.players = mapErase id acc.1.players := by
      unfold removePlayer
      split <;> rfl
    have hc : (removePlayer acc id).1.clients = mapErase id acc.1.clients := by
      unfold removePlayer
      split
      · rfl
      · rename_i hnone
        exact (mapErase_of_find_none hnone).symm
    have ho : ∀ (P : List (Int × Player)) (C : List (Int × ClientInfo)),
        ({ (removePlayer acc id).1 with players := P, clients := C } : GameServer) =
          { acc.1 with players := P, clients := C } := by
      intro P C
      unfold removePlayer
      split <;> rfl
    rw [hp, hc, ho]
    simp only [mapErase, List.filter_filter]
    congr 1
    · apply List.filter_congr
      intro e _
      by_cases h1 : e.1 = id <;> by_cases h2 : e.1 ∈ rest <;> simp [h1, h2]
    · apply List.filter_congr
      intro e _
      by_cases h1 : e.1 = id <;> by_cases h2 : e.1 ∈ rest <;> simp [h1, h2]

theorem checkInactivePlayers_state (s : GameServer) (now : TimePoint) :
    (checkInactivePlayers s now).1 =
      { s with
        players := s.players.filter (fun e => decide (e.1 ∉ playersToRemove s.players now)),
        clients := s.clients.filter (fun e => decide (e.1 ∉ playersToRemove s.players now)) } :=
  foldl_removePlayer_state _ _

/-! ## Well-formedness of every reached state -/

theorem wellFormed_initial (t0 : Position) (t : TimePoint) : WellFormed (initial t0 t) := by
  constructor <;> simp [initial, GameServer.start, GameServer.create, KeysAscending, mapKeys]

theorem wellFormed_join {s : GameServer} (wf : WellFormed s) (now : TimePoint)
    (rnd : Position) (clientInfo : ClientInfo) (username : String) :
    WellFormed (processMessage s now rnd clientInfo (Message.join username)).1 := by
  simp only [processMessage, registerClient, Player.create]
  constructor
  · exact keysAscending_mapSet wf.playersAsc
  · exact keysAscending_mapSet wf.clientsAsc
  · intro e he
    rcases mem_mapSet he with h | h
    · subst h; rfl
    · exact wf.playerIds e h
  · intro e he
    rcases mem_mapSet he with h | h
    · subst h; rfl
    · exact wf.clientIds e h
  · exact mapKeys_mapSet_congr _ _ wf.sameKeys
  · intro e he
    rcases mem_mapSet he with h | h
    · subst h
      have := wf.nextPos
      simp only
      omega
    · have := wf.keysBelow e h
      simp only at this ⊢
      omega
  · have := wf.nextPos
    simp only
    omega

theorem wellFormed_setPlayer {s : GameServer} (wf : WellFormed s) {playerId : Int}
    {p q : Player} (h : mapFind playerId s.players = some p) (hq : q.id = p.id)
    (t : Position) :
    WellFormed { s with players := mapSet playerId q s.players, treasure := t } := by
  have hmem := mapFind_mem h
  constructor
  · exact keysAscending_mapSet wf.playersAsc
  · exact wf.clientsAsc
  · intro e he
    rcases mem_mapSet he with h1 | h1
    · subst h1
      simpa [hq] using wf.playerIds _ hmem
    · exact wf.playerIds e h1
  · exact wf.clientIds
  · simp only
    rw [mapKeys_mapSet_of_find wf.playersAsc h]
    exact wf.sameKeys
  · intro e he
    rcases mem_mapSet he with h1 | h1
    · subst h1
      exact wf.keysBelow (playerId, p) hmem
    · exact wf.keysBelow e h1
  · exact wf.nextPos

theorem wellFormed_processMove {s : GameServer} (wf : WellFormed s) (now : TimePoint)
    (rnd : Position) (playerId : Int) (dir : Direction) :
    WellFormed (processMove s now rnd playerId dir).1 := by
  cases h : mapFind playerId s.players with
  | none => rw [processMove_of_none h]; exact wf
  | some p =>
    rw [processMove_of_find h]
    rcases moveFound_state s now rnd playerId p dir with ⟨_, _, hs⟩ | ⟨_, hs⟩
    · rw [hs]
      exact wellFormed_setPlayer wf h (q := { applyMove p dir with
        lastActivity := now, score := (applyMove p dir).score + 1 }) (applyMove_id p dir) rnd
    · rw [hs]
      exact wellFormed_setPlayer wf h (q := { applyMove p dir with lastActivity := now })
        (applyMove_id p dir) s.treasure

theorem wellFormed_checkInactivePlayers {s : GameServer} (wf : WellFormed s)
    (now : TimePoint) : WellFormed (checkInactivePlayers s now).1 := by
  rw [checkInactivePlayers_state]
  constructor
  · exact List.Pairwise.sublist (List.filter_sublist _) wf.playersAsc
  · exact List.Pairwise.sublist (List.filter_sublist _) wf.clientsAsc
  · intro e he
    exact wf.playerIds e (List.mem_filter.1 he).1
  · intro e he
    exact wf.clientIds e (List.mem_filter.1 he).1
  · have h := wf.sameKeys
    simp only [mapKeys] at h ⊢
    have key : ∀ (γ : Type) (l : List (Int × γ)) (q : Int → Bool),
        (l.filter (fun e => q e.1)).map Prod.fst = (l.map Prod.fst).filter q := by
      intro γ l q
      induction l with
      | nil => rfl
      | cons a rest ih =>
        by_cases hq : q a.1 <;> simp [List.filter_cons, hq, ih]
    rw [key _ _ (fun j => decide (j ∉ playersToRemove s.players now)),
      key _ _ (fun j => decide (j ∉ playersToRemove s.players now)), h]
  · intro e he
    exact wf.keysBelow e (List.mem_filter.1 he).1
  · exact wf.nextPos

theorem wellFormed_step {s : GameServer} (wf : WellFormed s) (e : Event) :
    WellFormed (step s e).1 := by
  cases e with
  | frame now rnd clientInfo msg =>
    cases msg with
    | join username => exact wellFormed_join wf now rnd clientInfo username
    | move playerId dirStr => exact wellFormed_processMove wf now rnd playerId _
    | other => exact wf
  | sweep now => exact wellFormed_checkInactivePlayers wf now

theorem wellFormed_run {s : GameServer} (wf : WellFormed s) (evs : List Event) :
    WellFormed (run s evs).1 := by
  induction evs generalizing s with
  | nil => exact wf
  | cons e es ih => exact ih (wellFormed_step wf e)

theorem wellFormed_of_reachable {s : GameServer} (h : Reachable s) : WellFormed s := by
  obtain ⟨t0, t, evs, rfl⟩ := h
  exact wellFormed_run (wellFormed_initial t0 t) evs

/-- In a well-formed state a registered player is filed under its own identity
and has a peer binding carrying that identity. -/
theorem WellFormed.bound {s : GameServer} (wf : WellFormed s) {playerId : Int} {p : Player}
    (h : mapFind playerId s.players = some p) :
    p.id = playerId ∧ ∃ c, getClient s.clients playerId = some c ∧ c.playerId = playerId := by
  refine ⟨wf.playerIds _ (mapFind_mem h), ?_⟩
  cases hc : getClient s.clients playerId with
  | none =>
    have := (mapFind_of_keys_eq wf.sameKeys).2 hc
    rw [h] at this
    cases this
  | some c => exact ⟨c, rfl, wf.clientIds _ (mapFind_mem hc)⟩

/-- The entry stored for the mover after `processMove`. -/
theorem processMove_find {s : GameServer} {playerId : Int} {p : Player}
    (h : mapFind playerId s.players = some p) (now : TimePoint) (rnd : Position)
    (dir : Direction) :
    mapFind playerId (processMove s now rnd playerId dir).1.players =
      some { applyMove p dir with
        lastActivity := now,
        score := if (applyMove p dir).x = s.treasure.x ∧ (applyMove p dir).y = s.treasure.y
          then p.score + 1 else p.score } := by
  rw [processMove_of_find h]
  rcases moveFound_state s now rnd playerId p dir with ⟨h1, h2, hs⟩ | ⟨hn, hs⟩
  · rw [hs]
    simp only [mapFind_mapSet_self, h1, h2, and_self, if_true, applyMove_score]
  · rw [hs]
    simp only [mapFind_mapSet_self, if_neg hn, applyMove_score]

theorem processMove_treasure {s : GameServer} {playerId : Int} {p : Player}
    (h : mapFind playerId s.players = some p) (now : TimePoint) (rnd : Position)
    (dir : Direction) :
    (processMove s now rnd playerId dir).1.treasure =
      if (applyMove p dir).x = s.treasure.x ∧ (applyMove p dir).y = s.treasure.y
      then rnd else s.treasure := by
  rw [processMove_of_find h]
  rcases moveFound_state s now rnd playerId p dir with ⟨h1, h2, hs⟩ | ⟨hn, hs⟩
  · rw [hs]
    simp only [h1, h2, and_self, if_true]
  · rw [hs]
    simp only [if_neg hn]

theorem processMove_clients (s : GameServer) (now : TimePoint) (rnd : Position)
    (playerId : Int) (dir : Direction) :
    (processMove s now rnd playerId dir).1.clients = s.clients := by
  cases h : mapFind playerId s.players with
  | none => rw [processMove_of_none h]
  | some p =>
    rw [processMove_of_find h]
    rcases moveFound_state s now rnd playerId p dir with ⟨_, _, hs⟩ | ⟨_, hs⟩ <;> rw [hs]

/-- The datagrams of `moveFound` when the mover lands on the treasure. -/
theorem moveFound_out_pickup (s : GameServer) (now : TimePoint) (rnd : Position)
    (playerId : Int) (p : Player) (dir : Direction)
    (h : (applyMove p dir).x = s.treasure.x ∧ (applyMove p dir).y = s.treasure.y) :
    (moveFound s now rnd playerId p dir).2 =
      sendIfBound (getClient s.clients p.id)
          [Tok.word "POS", Tok.num p.id, Tok.num (applyMove p dir).x,
            Tok.num (applyMove p dir).y] ++
        broadcastMessage s.clients
          [Tok.word "COLLECTED", Tok.num p.id, Tok.num (p.score + 1)] ++
        broadcastMessage s.clients [Tok.word "TREASURE", Tok.num rnd.x, Tok.num rnd.y] ++
        broadcastMessage s.clients
          (scoresMsg (moveFound s now rnd playerId p dir).1.players) := by
  simp [moveFound, h.1, h.2, posMsg, collectMsg, treasureMsg, broadcastScores, applyMove_id,
    applyMove_score]

/-- The datagrams of `moveFound` when the mover does not land on the treasure. -/
theorem moveFound_out_noPickup (s : GameServer) (now : TimePoint) (rnd : Position)
    (playerId : Int) (p : Player) (dir : Direction)
    (h : ¬ ((applyMove p dir).x = s.treasure.x ∧ (applyMove p dir).y = s.treasure.y)) :
    (moveFound s now rnd playerId p dir).2 =
      sendIfBound (getClient s.clients p.id)
        [Tok.word "POS", Tok.num p.id, Tok.num (applyMove p dir).x,
          Tok.num (applyMove p dir).y] := by
  simp only [moveFound]
  rw [if_neg h]
  simp [posMsg, applyMove_id]

theorem applyMove_of_valid {p : Player} {dir : Direction}
    (h : InGrid (candidate p.x p.y dir).1 (candidate p.x p.y dir).2) :
    (applyMove p dir).x = (candidate p.x p.y dir).1 ∧
      (applyMove p dir).y = (candidate p.x p.y dir).2 := by
  simp only [applyMove]
  rw [if_pos ((isValidMove_iff _ _).2 h)]
  exact ⟨rfl, rfl⟩

theorem applyMove_of_invalid {p : Player} {dir : Direction}
    (h : ¬ InGrid (candidate p.x p.y dir).1 (candidate p.x p.y dir).2) :
    (applyMove p dir).x = p.x ∧ (applyMove p dir).y = p.y := by
  simp only [applyMove]
  rw [if_neg (fun hv => h ((isValidMove_iff _ _).1 hv))]
  exact ⟨rfl, rfl⟩

/-! ## Positions stay in the grid -/

theorem positions_step {s : GameServer} (h : ∀ e ∈ s.players, InGrid e.2.x e.2.y)
    {ev : Event} (hr : ev.rndInGrid) : ∀ e ∈ (step s ev).1.players, InGrid e.2.x e.2.y := by
  cases ev with
  | frame now rnd clientInfo msg =>
    cases msg with
    | join username =>
      intro e he
      simp only [step, processMessage, Player.create] at he
      rcases mem_mapSet he with h1 | h1
      · subst h1
        exact hr
      · exact h e h1
    | move playerId dirStr =>
      simp only [step, processMessage]
      cases hf : mapFind playerId s.players with
      | none => rw [processMove_of_none hf]; exact h
      | some p =>
        have hp : InGrid p.x p.y := h _ (mapFind_mem hf)
        have hq := applyMove_inGrid (stringToDirection dirStr) hp
        rw [processMove_of_find hf]
        intro e he
        rcases moveFound_state s now rnd playerId p (stringToDirection dirStr) with
          ⟨_, _, hs⟩ | ⟨_, hs⟩
        · rw [hs] at he
          rcases mem_mapSet he with h1 | h1
          · subst h1; exact hq
          · exact h e h1
        · rw [hs] at he
          rcases mem_mapSet he with h1 | h1
          · subst h1; exact hq
          · exact h e h1
    | other => exact h
  | sweep now =>
    intro e he
    simp only [step, checkInactivePlayers_state] at he
    exact h e (List.mem_filter.1 he).1

theorem positions_run {s : GameServer} (h : ∀ e ∈ s.players, InGrid e.2.x e.2.y)
    {evs : List Event} (hr : ∀ ev ∈ evs, ev.rndInGrid) :
    ∀ e ∈ (run s evs).1.players, InGrid e.2.x e.2.y := by
  induction evs generalizing s with
  | nil => exact h
  | cons ev es ih =>
    exact ih (positions_step h (hr ev (List.mem_cons_self _ _)))
      (fun ev' h' => hr ev' (List.mem_cons_of_mem _ h'))

/-- C1: in every state reached from the initial state by JOIN frames, MOVE
frames and inactivity sweeps whose random positions lie in the grid, every
registered player's stored position satisfies 1 <= x <= 10 and 1 <= y <= 10. -/
theorem C1_positions_within_grid (t0 : Position) (t : TimePoint) (evs : List Event)
    (hrnd : ∀ ev ∈ evs, ev.rndInGrid) :
    ∀ e ∈ (run (initial t0 t) evs).1.players,
      1 ≤ e.2.x ∧ e.2.x ≤ 10 ∧ 1 ≤ e.2.y ∧ e.2.y ≤ 10 := by
  have h0 : ∀ e ∈ (initial t0 t).players, InGrid e.2.x e.2.y := by
    simp [initial, GameServer.start, GameServer.create]
  intro e he
  exact positions_run h0 hrnd e he

theorem C1_positions_within_grid_witness :
    (∀ ev ∈ [Event.frame 0 ⟨10, 1⟩ ⟨7, 7, -1⟩ (Message.join "alice"),
              Event.frame 1 ⟨2, 2⟩ ⟨7, 7, -1⟩ (Message.move 1 "RIGHT"),
              Event.frame 2 ⟨4, 9⟩ ⟨8, 8, -1⟩ (Message.join "bob"),
              Event.sweep 5], ev.rndInGrid) ∧
    ∀ e ∈ (run (initial ⟨3, 3⟩ 0)
        [Event.frame 0 ⟨10, 1⟩ ⟨7, 7, -1⟩ (Message.join "alice"),
         Event.frame 1 ⟨2, 2⟩ ⟨7, 7, -1⟩ (Message.move 1 "RIGHT"),
         Event.frame 2 ⟨4, 9⟩ ⟨8, 8, -1⟩ (Message.join "bob"),
         Event.sweep 5]).1.players,
      1 ≤ e.2.x ∧ e.2.x ≤ 10 ∧ 1 ≤ e.2.y ∧ e.2.y ≤ 10 :=
  ⟨by decide, C1_positions_within_grid ⟨3, 3⟩ 0 _ (by decide)⟩

/-! ## Pickups -/

/-- C2: for a MOVE by a registered player, a pickup (the score grows by exactly
one and a COLLECTED frame is sent) happens if and only if the position stored
after the move, accepted or rejected, equals the treasure position held before
the call; otherwise score and treasure are unchanged and no COLLECTED is sent. -/
theorem C2_pickup_iff_on_treasure (s : GameServer) (hs : Reachable s) (now : TimePoint)
    (rnd : Position) (playerId : Int) (dir : Direction) (p : Player)
    (h : mapFind playerId s.players = some p) :
    ∃ q, mapFind playerId (processMove s now rnd playerId dir).1.players = some q ∧
      ((q.score = p.score + 1 ∧
          ∃ d ∈ (processMove s now rnd playerId dir).2,
            d.2 = [Tok.word "COLLECTED", Tok.num playerId, Tok.num (p.score + 1)]) ↔
        (q.x = s.treasure.x ∧ q.y = s.treasure.y)) ∧
      (¬ (q.x = s.treasure.x ∧ q.y = s.treasure.y) →
        q.score = p.score ∧ (processMove s now rnd playerId dir).1.treasure = s.treasure ∧
          ∀ d ∈ (processMove s now rnd playerId dir).2,
            d.2.head? ≠ some (Tok.word "COLLECTED")) := by
  have wf := wellFormed_of_reachable hs
  obtain ⟨hid, c, hc, _⟩ := wf.bound h
  refine ⟨_, processMove_find h now rnd dir, ?_, ?_⟩
  · constructor
    · rintro ⟨hsc, _⟩
      by_contra hn
      simp only at hn hsc
      rw [if_neg hn] at hsc
      omega
    · intro hC
      simp only at hC
      refine ⟨by simp only [hC, and_self, if_true], ?_⟩
      rw [processMove_of_find h, moveFound_out_pickup s now rnd playerId p dir hC]
      refine ⟨(c, [Tok.word "COLLECTED", Tok.num playerId, Tok.num (p.score + 1)]), ?_, rfl⟩
      have hmem : (playerId, c) ∈ s.clients := mapFind_mem hc
      simp only [List.mem_append, broadcastMessage, List.mem_map, hid]
      exact Or.inl (Or.inl (Or.inr ⟨(playerId, c), hmem, rfl⟩))
  · intro hn
    simp only at hn
    refine ⟨by simp only [if_neg hn], ?_, ?_⟩
    · rw [processMove_treasure h, if_neg hn]
    · rw [processMove_of_find h, moveFound_out_noPickup s now rnd playerId p dir hn]
      intro d hd
      cases hg : getClient s.clients p.id with
      | none => simp [sendIfBound, hg] at hd
      | some c' =>
        simp only [sendIfBound, hg, List.mem_singleton] at hd
        subst hd
        simp

theorem C2_pickup_iff_on_treasure_witness :
    Reachable (run (initial ⟨1, 1⟩ 0)
      [Event.frame 0 ⟨1, 1⟩ ⟨7, 7, -1⟩ (Message.join "alice")]).1 ∧
    mapFind 1 (run (initial ⟨1, 1⟩ 0)
      [Event.frame 0 ⟨1, 1⟩ ⟨7, 7, -1⟩ (Message.join "alice")]).1.players
        = some ⟨1, "alice", 1, 1, 0, 0⟩ ∧
    ∃ q, mapFind 1 (processMove (run (initial ⟨1, 1⟩ 0)
          [Event.frame 0 ⟨1, 1⟩ ⟨7, 7, -1⟩ (Message.join "alice")]).1
          9 ⟨4, 4⟩ 1 Direction.LEFT).1.players = some q ∧
      ((q.score = 0 + 1 ∧
          ∃ d ∈ (processMove (run (initial ⟨1, 1⟩ 0)
              [Event.frame 0 ⟨1, 1⟩ ⟨7, 7, -1⟩ (Message.join "alice")]).1
              9 ⟨4, 4⟩ 1 Direction.LEFT).2,
            d.2 = [Tok.word "COLLECTED", Tok.num 1, Tok.num (0 + 1)]) ↔
        (q.x = 1 ∧ q.y = 1)) ∧
      (¬ (q.x = 1 ∧ q.y = 1) →
        q.score = 0 ∧ (processMove (run (initial ⟨1, 1⟩ 0)
              [Event.frame 0 ⟨1, 1⟩ ⟨7, 7, -1⟩ (Message.join "alice")]).1
              9 ⟨4, 4⟩ 1 Direction.LEFT).1.treasure = ⟨1, 1⟩ ∧
          ∀ d ∈ (processMove (run (initial ⟨1, 1⟩ 0)
              [Event.frame 0 ⟨1, 1⟩ ⟨7, 7, -1⟩ (Message.join "alice")]).1
              9 ⟨4, 4⟩ 1 Direction.LEFT).2,
            d.2.head? ≠ some (Tok.word "COLLECTED")) :=
  ⟨⟨⟨1, 1⟩, 0, _, rfl⟩, by decide,
    C2_pickup_iff_on_treasure _ ⟨⟨1, 1⟩, 0, _, rfl⟩ 9 ⟨4, 4⟩ 1 Direction.LEFT
      ⟨1, "alice", 1, 1, 0, 0⟩ (by decide)⟩

/-- C3: for a MOVE by a registered, peer-bound player that lands on the
treasure, the datagrams of `processMove` are, in this order: POS id x y to the
mover's peer, then COLLECTED id newScore, then TREASURE with the relocated
treasure, then the SCORES snapshot, each of the last three to every bound peer;
newScore is the old score plus one and the snapshot lists it. -/
theorem C3_pickup_frames_in_order (s : GameServer) (hs : Reachable s) (now : TimePoint)
    (rnd : Position) (playerId : Int) (dir : Direction) (p : Player) (c : ClientInfo)
    (h : mapFind playerId s.players = some p)
    (hc : getClient s.clients playerId = some c)
    (hpick : storedPos (processMove s now rnd playerId dir).1 playerId =
      some (s.treasure.x, s.treasure.y)) :
    ∃ q, mapFind playerId (processMove s now rnd playerId dir).1.players = some q ∧
      q.score = p.score + 1 ∧
      (processMove s now rnd playerId dir).1.treasure = rnd ∧
      (processMove s now rnd playerId dir).1.clients = s.clients ∧
      (processMove s now rnd playerId dir).2 =
        [(c, [Tok.word "POS", Tok.num playerId, Tok.num q.x, Tok.num q.y])] ++
        s.clients.map (fun e =>
          (e.2, [Tok.word "COLLECTED", Tok.num playerId, Tok.num q.score])) ++
        s.clients.map (fun e =>
          (e.2, [Tok.word "TREASURE",
            Tok.num (processMove s now rnd playerId dir).1.treasure.x,
            Tok.num (processMove s now rnd playerId dir).1.treasure.y])) ++
        s.clients.map (fun e =>
          (e.2, scoresMsg (processMove s now rnd playerId dir).1.players)) ∧
      (playerId, q.score) ∈ scorePairs (processMove s now rnd playerId dir).1.players := by
  have wf := wellFormed_of_reachable hs
  have hid : p.id = playerId := (wf.bound h).1
  have hfind := processMove_find h now rnd dir
  have hC : (applyMove p dir).x = s.treasure.x ∧ (applyMove p dir).y = s.treasure.y := by
    simp only [storedPos, hfind, Option.map_some', Option.some.injEq, Prod.mk.injEq] at hpick
    exact hpick
  have htr : (processMove s now rnd playerId dir).1.treasure = rnd := by
    rw [processMove_treasure h, if_pos hC]
  refine ⟨_, hfind, by simp only [hC, and_self, if_true], htr, processMove_clients _ _ _ _ _,
    ?_, ?_⟩
  · rw [htr]
    rw [processMove_of_find h, moveFound_out_pickup s now rnd playerId p dir hC, hid, hc]
    simp only [sendIfBound, broadcastMessage, hC, and_self, if_true]
  · have hmem := mapFind_mem hfind
    simp only [scorePairs, List.mem_map]
    exact ⟨_, hmem, by simp only [applyMove_id, hid]⟩

theorem C3_pickup_frames_in_order_witness :
    (processMove (run (initial ⟨5, 5⟩ 0)
        [Event.frame 0 ⟨5, 4⟩ ⟨7, 7, -1⟩ (Message.join "alice")]).1
        3 ⟨2, 9⟩ 1 Direction.DOWN).2 =
      [(⟨7, 7, 1⟩, [Tok.word "POS", Tok.num 1, Tok.num 5, Tok.num 5]),
       (⟨7, 7, 1⟩, [Tok.word "COLLECTED", Tok.num 1, Tok.num 1]),
       (⟨7, 7, 1⟩, [Tok.word "TREASURE", Tok.num 2, Tok.num 9]),
       (⟨7, 7, 1⟩, [Tok.word "SCORES", Tok.num 1, Tok.num 1, Tok.num 1])] ∧
    ∃ q, mapFind 1 (processMove (run (initial ⟨5, 5⟩ 0)
        [Event.frame 0 ⟨5, 4⟩ ⟨7, 7, -1⟩ (Message.join "alice")]).1
        3 ⟨2, 9⟩ 1 Direction.DOWN).1.players = some q ∧
      q.score = 0 + 1 ∧
      (processMove (run (initial ⟨5, 5⟩ 0)
        [Event.frame 0 ⟨5, 4⟩ ⟨7, 7, -1⟩ (Message.join "alice")]).1
        3 ⟨2, 9⟩ 1 Direction.DOWN).1.treasure = ⟨2, 9⟩ ∧
      (processMove (run (initial ⟨5, 5⟩ 0)
        [Event.frame 0 ⟨5, 4⟩ ⟨7, 7, -1⟩ (Message.join "alice")]).1
        3 ⟨2, 9⟩ 1 Direction.DOWN).1.clients = [(1, ⟨7, 7, 1⟩)] ∧
      (processMove (run (initial ⟨5, 5⟩ 0)
        [Event.frame 0 ⟨5, 4⟩ ⟨7, 7, -1⟩ (Message.join "alice")]).1
        3 ⟨2, 9⟩ 1 Direction.DOWN).2 =
        [((⟨7, 7, 1⟩ : ClientInfo), [Tok.word "POS", Tok.num 1, Tok.num q.x, Tok.num q.y])] ++
        [(1, (⟨7, 7, 1⟩ : ClientInfo))].map (fun e =>
          (e.2, [Tok.word "COLLECTED", Tok.num 1, Tok.num q.score])) ++
        [(1, (⟨7, 7, 1⟩ : ClientInfo))].map (fun e =>
          (e.2, [Tok.word "TREASURE",
            Tok.num (processMove (run (initial ⟨5, 5⟩ 0)
              [Event.frame 0 ⟨5, 4⟩ ⟨7, 7, -1⟩ (Message.join "alice")]).1
              3 ⟨2, 9⟩ 1 Direction.DOWN).1.treasure.x,
            Tok.num (processMove (run (initial ⟨5, 5⟩ 0)
              [Event.frame 0 ⟨5, 4⟩ ⟨7, 7, -1⟩ (Message.join "alice")]).1
              3 ⟨2, 9⟩ 1 Direction.DOWN).1.treasure.y])) ++
        [(1, (⟨7, 7, 1⟩ : ClientInfo))].map (fun e =>
          (e.2, scoresMsg (processMove (run (initial ⟨5, 5⟩ 0)
            [Event.frame 0 ⟨5, 4⟩ ⟨7, 7, -1⟩ (Message.join "alice")]).1
            3 ⟨2, 9⟩ 1 Direction.DOWN).1.players)) ∧
      ((1 : Int), q.score) ∈ scorePairs (processMove (run (initial ⟨5, 5⟩ 0)
        [Event.frame 0 ⟨5, 4⟩ ⟨7, 7, -1⟩ (Message.join "alice")]).1
        3 ⟨2, 9⟩ 1 Direction.DOWN).1.players :=
  ⟨by decide,
    C3_pickup_frames_in_order _ ⟨⟨5, 5⟩, 0, _, rfl⟩ 3 ⟨2, 9⟩ 1 Direction.DOWN
      ⟨1, "alice", 5, 4, 0, 0⟩ ⟨7, 7, 1⟩ (by decide) (by decide) (by decide)⟩

/-! ## Accepted and rejected moves -/

/-- C5: for a registered player and a direction whose candidate position lies
outside the grid, `processMove` leaves the stored x and y unchanged and sets the
player's lastActivity to the current time. -/
theorem C5_rejected_move_keeps_position (s : GameServer) (now : TimePoint) (rnd : Position)
    (playerId : Int) (dir : Direction) (p : Player)
    (h : mapFind playerId s.players = some p)
    (hout : ¬ InGrid (candidate p.x p.y dir).1 (candidate p.x p.y dir).2) :
    ∃ q, mapFind playerId (processMove s now rnd playerId dir).1.players = some q ∧
      q.x = p.x ∧ q.y = p.y ∧ q.lastActivity = now := by
  refine ⟨_, processMove_find h now rnd dir, ?_, ?_, rfl⟩
  · exact (applyMove_of_invalid hout).1
  · exact (applyMove_of_invalid hout).2

theorem C5_rejected_move_keeps_position_witness :
    mapFind 1 (GameServer.mk [(1, ⟨7, 7, 1⟩)] true [(1, ⟨1, "alice", 1, 4, 2, 0⟩)] 2
      ⟨5, 5⟩ 0).players = some ⟨1, "alice", 1, 4, 2, 0⟩ ∧
    ¬ InGrid (candidate 1 4 Direction.LEFT).1 (candidate 1 4 Direction.LEFT).2 ∧
    ∃ q, mapFind 1 (processMove (GameServer.mk [(1, ⟨7, 7, 1⟩)] true
        [(1, ⟨1, "alice", 1, 4, 2, 0⟩)] 2 ⟨5, 5⟩ 0) 33 ⟨2, 9⟩ 1 Direction.LEFT).1.players
        = some q ∧
      q.x = 1 ∧ q.y = 4 ∧ q.lastActivity = 33 :=
  ⟨by decide, by decide,
    C5_rejected_move_keeps_position
      (GameServer.mk [(1, ⟨7, 7, 1⟩)] true [(1, ⟨1, "alice", 1, 4, 2, 0⟩)] 2 ⟨5, 5⟩ 0)
      33 ⟨2, 9⟩ 1 Direction.LEFT ⟨1, "alice", 1, 4, 2, 0⟩ (by decide) (by decide)⟩

/-- C6: for a registered player at (x, y), a move whose candidate position is
inside the grid stores exactly (x, y-1) for UP, (x, y+1) for DOWN, (x-1, y) for
LEFT and (x+1, y) for RIGHT. -/
theorem C6_accepted_move_stores_candidate (s : GameServer) (now : TimePoint)
    (rnd : Position) (playerId : Int) (p : Player)
    (h : mapFind playerId s.players = some p) :
    (InGrid p.x (p.y - 1) →
      storedPos (processMove s now rnd playerId Direction.UP).1 playerId =
        some (p.x, p.y - 1)) ∧
    (InGrid p.x (p.y + 1) →
      storedPos (processMove s now rnd playerId Direction.DOWN).1 playerId =
        some (p.x, p.y + 1)) ∧
    (InGrid (p.x - 1) p.y →
      storedPos (processMove s now rnd playerId Direction.LEFT).1 playerId =
        some (p.x - 1, p.y)) ∧
    (InGrid (p.x + 1) p.y →
      storedPos (processMove s now rnd playerId Direction.RIGHT).1 playerId =
        some (p.x + 1, p.y)) := by
  refine ⟨?_, ?_, ?_, ?_⟩ <;> intro hin
  · have hv := @applyMove_of_valid p Direction.UP hin
    simp only [storedPos, processMove_find h, Option.map_some', hv, candidate]
  · have hv := @applyMove_of_valid p Direction.DOWN hin
    simp only [storedPos, processMove_find h, Option.map_some', hv, candidate]
  · have hv := @applyMove_of_valid p Direction.LEFT hin
    simp only [storedPos, processMove_find h, Option.map_some', hv, candidate]
  · have hv := @applyMove_of_valid p Direction.RIGHT hin
    simp only [storedPos, processMove_find h, Option.map_some', hv, candidate]

theorem C6_accepted_move_stores_candidate_witness :
    storedPos (processMove (GameServer.mk [(1, ⟨7, 7, 1⟩)] true
      [(1, ⟨1, "alice", 3, 4, 2, 0⟩)] 2 ⟨5, 5⟩ 0) 33 ⟨2, 9⟩ 1 Direction.UP).1 1
      = some (3, 4 - 1) ∧
    storedPos (processMove (GameServer.mk [(1, ⟨7, 7, 1⟩)] true
      [(1, ⟨1, "alice", 3, 4, 2, 0⟩)] 2 ⟨5, 5⟩ 0) 33 ⟨2, 9⟩ 1 Direction.DOWN).1 1
      = some (3, 4 + 1) ∧
    storedPos (processMove (GameServer.mk [(1, ⟨7, 7, 1⟩)] true
      [(1, ⟨1, "alice", 3, 4, 2, 0⟩)] 2 ⟨5, 5⟩ 0) 33 ⟨2, 9⟩ 1 Direction.LEFT).1 1
      = some (3 - 1, 4) ∧
    storedPos (processMove (GameServer.mk [(1, ⟨7, 7, 1⟩)] true
      [(1, ⟨1, "alice", 3, 4, 2, 0⟩)] 2 ⟨5, 5⟩ 0) 33 ⟨2, 9⟩ 1 Direction.RIGHT).1 1
      = some (3 + 1, 4) :=
  have w := C6_accepted_move_stores_candidate
    (GameServer.mk [(1, ⟨7, 7, 1⟩)] true [(1, ⟨1, "alice", 3, 4, 2, 0⟩)] 2 ⟨5, 5⟩ 0)
    33 ⟨2, 9⟩ 1 ⟨1, "alice", 3, 4, 2, 0⟩ (by decide)
  ⟨w.1 (by decide), w.2.1 (by decide), w.2.2.1 (by decide), w.2.2.2 (by decide)⟩

/-! ## The winner announced by `endGame` -/

/-- The winner loop from accumulator `(w, h)`: either no score in the list
exceeds `h` and the accumulator is returned, or the result is the first entry
whose score is maximal, every earlier entry scoring strictly less. -/
theorem foldl_winnerStep (l : List (Int × Player)) (w h : Int) :
    ((∀ e ∈ l, e.2.score ≤ h) ∧ l.foldl winnerStep (w, h) = (w, h)) ∨
    ∃ l1 e l2, l = l1 ++ e :: l2 ∧ l.foldl winnerStep (w, h) = (e.2.id, e.2.score) ∧
      h < e.2.score ∧ (∀ e' ∈ l1, e'.2.score < e.2.score) ∧
      (∀ e' ∈ l2, e'.2.score ≤ e.2.score) := by
  induction l generalizing w h with
  | nil => left; simp
  | cons a t ih =>
    rw [List.foldl_cons]
    by_cases ha : a.2.score > h
    · have hstep : winnerStep (w, h) a = (a.2.id, a.2.score) := by
        simp [winnerStep, ha]
      rw [hstep]
      rcases ih a.2.id a.2.score with ⟨hall, hres⟩ | ⟨l1, e, l2, hl, hres, hlt, h1, h2⟩
      · right
        exact ⟨[], a, t, rfl, hres, ha, by simp, hall⟩
      · right
        refine ⟨a :: l1, e, l2, by simp [hl], hres, by omega, ?_, h2⟩
        intro e' he'
        rcases List.mem_cons.1 he' with h' | h'
        · subst h'; exact hlt
        · exact h1 e' h'
    · have hstep : winnerStep (w, h) a = (w, h) := by
        simp [winnerStep, ha]
      rw [hstep]
      rcases ih w h with ⟨hall, hres⟩ | ⟨l1, e, l2, hl, hres, hlt, h1, h2⟩
      · left
        refine ⟨?_, hres⟩
        intro e' he'
        rcases List.mem_cons.1 he' with h' | h'
        · subst h'; omega
        · exact hall e' h'
      · right
        refine ⟨a :: l1, e, l2, by simp [hl], hres, hlt, ?_, h2⟩
        intro e' he'
        rcases List.mem_cons.1 he' with h' | h'
        · subst h'; omega
        · exact h1 e' h'

/-- C4: for a non-empty registry (a map in key order whose players are filed
under their own identity) with non-negative scores, the GAMEOVER frame of
`endGame` carries the identity and score of a registered player whose score is
maximal and whose identity is the lowest among the players with that score. -/
theorem C4_gameover_lowest_top_scorer (s : GameServer)
    (hasc : KeysAscending s.players) (hids : ∀ e ∈ s.players, e.2.id = e.1)
    (hne : s.players ≠ []) (hnn : ∀ e ∈ s.players, 0 ≤ e.2.score) :
    ∃ w ∈ s.players,
      (endGame s).2 = s.clients.map (fun c =>
        (c.2, [Tok.word "GAMEOVER", Tok.num w.2.id, Tok.num w.2.score])) ∧
      (∀ e ∈ s.players, e.2.score ≤ w.2.score) ∧
      (∀ e ∈ s.players, e.2.score = w.2.score → w.2.id ≤ e.2.id) := by
  rcases foldl_winnerStep s.players (-1) (-1) with ⟨hall, _⟩ | ⟨l1, e, l2, hl, hres, _, h1, h2⟩
  · exfalso
    cases hp : s.players with
    | nil => exact hne hp
    | cons a t =>
      have h1 := hall a (by rw [hp]; exact List.mem_cons_self _ _)
      have h2 := hnn a (by rw [hp]; exact List.mem_cons_self _ _)
      omega
  · have hmem : e ∈ s.players := by rw [hl]; simp
    refine ⟨e, hmem, ?_, ?_, ?_⟩
    · simp only [endGame, findWinner, hres, broadcastMessage, gameOverMsg]
    · intro e' he'
      rw [hl] at he'
      rcases List.mem_append.1 he' with h' | h'
      · exact le_of_lt (h1 e' h')
      · rcases List.mem_cons.1 h' with h'' | h''
        · subst h''; exact le_refl _
        · exact h2 e' h''
    · intro e' he' heq
      have he'' := he'
      rw [hl] at he'
      rcases List.mem_append.1 he' with h' | h'
      · have := h1 e' h'
        omega
      · rcases List.mem_cons.1 h' with h'' | h''
        · subst h''; exact le_refl _
        · have hp : (l1 ++ e :: l2).Pairwise (fun a b => a.1 < b.1) := by
            rw [← hl]; exact hasc
          have hp2 := (List.pairwise_append.1 hp).2.1
          have hlt := (List.pairwise_cons.1 hp2).1 e' h''
          rw [hids e hmem, hids e' he'']
          exact le_of_lt hlt

theorem C4_gameover_lowest_top_scorer_witness :
    (endGame (GameServer.mk [(1, ⟨7, 7, 1⟩), (2, ⟨8, 8, 2⟩), (3, ⟨9, 9, 3⟩)] true
      [(1, ⟨1, "a", 2, 2, 3, 0⟩), (2, ⟨2, "b", 4, 4, 5, 0⟩), (3, ⟨3, "c", 6, 6, 5, 0⟩)]
      4 ⟨5, 5⟩ 0)).2 =
      [(⟨7, 7, 1⟩, [Tok.word "GAMEOVER", Tok.num 2, Tok.num 5]),
       (⟨8, 8, 2⟩, [Tok.word "GAMEOVER", Tok.num 2, Tok.num 5]),
       (⟨9, 9, 3⟩, [Tok.word "GAMEOVER", Tok.num 2, Tok.num 5])] ∧
    ∃ w ∈ [((1 : Int), (⟨1, "a", 2, 2, 3, 0⟩ : Player)), (2, ⟨2, "b", 4, 4, 5, 0⟩),
        (3, ⟨3, "c", 6, 6, 5, 0⟩)],
      (endGame (GameServer.mk [(1, ⟨7, 7, 1⟩), (2, ⟨8, 8, 2⟩), (3, ⟨9, 9, 3⟩)] true
        [(1, ⟨1, "a", 2, 2, 3, 0⟩), (2, ⟨2, "b", 4, 4, 5, 0⟩), (3, ⟨3, "c", 6, 6, 5, 0⟩)]
        4 ⟨5, 5⟩ 0)).2 =
        [((1 : Int), (⟨7, 7, 1⟩ : ClientInfo)), (2, ⟨8, 8, 2⟩), (3, ⟨9, 9, 3⟩)].map (fun c =>
          (c.2, [Tok.word "GAMEOVER", Tok.num w.2.id, Tok.num w.2.score])) ∧
      (∀ e ∈ [((1 : Int), (⟨1, "a", 2, 2, 3, 0⟩ : Player)), (2, ⟨2, "b", 4, 4, 5, 0⟩),
          (3, ⟨3, "c", 6, 6, 5, 0⟩)], e.2.score ≤ w.2.score) ∧
      (∀ e ∈ [((1 : Int), (⟨1, "a", 2, 2, 3, 0⟩ : Player)), (2, ⟨2, "b", 4, 4, 5, 0⟩),
          (3, ⟨3, "c", 6, 6, 5, 0⟩)], e.2.score = w.2.score → w.2.id ≤ e.2.id) :=
  ⟨by decide,
    C4_gameover_lowest_top_scorer
      (GameServer.mk [(1, ⟨7, 7, 1⟩), (2, ⟨8, 8, 2⟩), (3, ⟨9, 9, 3⟩)] true
        [(1, ⟨1, "a", 2, 2, 3, 0⟩), (2, ⟨2, "b", 4, 4, 5, 0⟩), (3, ⟨3, "c", 6, 6, 5, 0⟩)]
        4 ⟨5, 5⟩ 0)
      (by decide) (by decide) (by decide) (by decide)⟩

/-! ## The inactivity sweep -/

/-- The test of the sweep, `duration_cast<seconds>(now - last).count() > 10`,
holds exactly when at least eleven whole seconds have passed. -/
theorem elapsedSeconds_gt_iff (now last : Int) :
    elapsedSeconds now last > INACTIVITY_TIMEOUT_SECONDS ↔
      11 * TICKS_PER_SECOND ≤ now - last := by
  simp only [elapsedSeconds, INACTIVITY_TIMEOUT_SECONDS, TICKS_PER_SECOND]
  generalize now - last = d
  by_cases hd : 0 ≤ d
  · rw [Int.tdiv_eq_ediv hd (by decide)]
    omega
  · have h1 : d.tdiv 1000000000 = -((-d).tdiv 1000000000) := by
      rw [Int.neg_tdiv, neg_neg]
    have h2 : 0 ≤ (-d).tdiv 1000000000 := Int.tdiv_nonneg (by omega) (by decide)
    omega

theorem mem_playersToRemove {players : List (Int × Player)} {now : TimePoint} {id : Int} :
    id ∈ playersToRemove players now ↔
      ∃ e ∈ players, 11 * TICKS_PER_SECOND ≤ now - e.2.lastActivity ∧ e.2.id = id := by
  simp only [playersToRemove, List.mem_filterMap]
  constructor
  · rintro ⟨e, he, h⟩
    split_ifs at h with hc
    · exact ⟨e, he, (elapsedSeconds_gt_iff _ _).1 hc, by simpa using h⟩
  · rintro ⟨e, he, hc, hid⟩
    refine ⟨e, he, ?_⟩
    rw [if_pos ((elapsedSeconds_gt_iff _ _).2 hc), hid]

theorem playersToRemove_nodup {players : List (Int × Player)} (hasc : KeysAscending players)
    (hids : ∀ e ∈ players, e.2.id = e.1) (now : TimePoint) :
    (playersToRemove players now).Nodup := by
  have h1 : players.Pairwise (fun a b => a.2.id ≠ b.2.id) := by
    refine List.Pairwise.imp_of_mem ?_ hasc
    intro a b ha hb hab
    rw [hids a ha, hids b hb]
    omega
  refine List.Pairwise.filterMap _ ?_ h1
  intro a a' hne b hb b' hb'
  split_ifs at hb with hc
  · split_ifs at hb' with hc'
    · simp only [Option.mem_def, Option.some.injEq] at hb hb'
      rw [← hb, ← hb']
      exact hne
    · simp at hb'
  · simp at hb

theorem removePlayer_clients (acc : GameServer × List Datagram) (id : Int) :
    (removePlayer acc id).1.clients = mapErase id acc.1.clients := by
  unfold removePlayer
  split
  · rfl
  · rename_i hnone
    exact (mapErase_of_find_none hnone).symm

theorem removePlayer_out (acc : GameServer × List Datagram) (id : Int) :
    (removePlayer acc id).2 = acc.2 ++ sendIfBound (getClient acc.1.clients id) kickMsg := by
  unfold removePlayer
  split
  · rename_i c hc
    simp [sendIfBound, hc]
  · rename_i hnone
    simp [sendIfBound, hnone]

/-- The datagrams of the second loop of `checkInactivePlayers`: one KICK for
each listed identity that has a binding, in list order. -/
theorem foldl_removePlayer_out (ids : List Int) (hnd : ids.Nodup)
    (acc : GameServer × List Datagram) :
    (ids.foldl removePlayer acc).2 =
      acc.2 ++ (ids.map (fun j => sendIfBound (getClient acc.1.clients j) kickMsg)).flatten := by
  induction ids generalizing acc with
  | nil => simp
  | cons id rest ih =>
    have hnd' := List.nodup_cons.1 hnd
    rw [List.foldl_cons, ih hnd'.2, removePlayer_out, removePlayer_clients]
    have hcongr : rest.map (fun j => sendIfBound (getClient (mapErase id acc.1.clients) j) kickMsg)
        = rest.map (fun j => sendIfBound (getClient acc.1.clients j) kickMsg) := by
      apply List.map_congr_left
      intro j hj
      have hne : j ≠ id := fun e => hnd'.1 (e ▸ hj)
      simp only [getClient, mapFind_mapErase_ne hne]
    rw [hcongr]
    simp [List.append_assoc]

theorem kicks_filter_of_not_mem {clients : List (Int × ClientInfo)}
    (hcl : ∀ e ∈ clients, e.2.playerId = e.1) {ids : List Int} {id : Int} (h : id ∉ ids) :
    ((ids.map (fun j => sendIfBound (getClient clients j) kickMsg)).flatten).filter
      (fun d => decide (d.1.playerId = id)) = [] := by
  induction ids with
  | nil => simp
  | cons j rest ih =>
    have hj : j ≠ id := fun e => h (e ▸ List.mem_cons_self _ _)
    have hr : id ∉ rest := fun e => h (List.mem_cons_of_mem _ e)
    simp only [List.map_cons, List.flatten_cons, List.filter_append, ih hr, List.append_nil]
    cases hg : getClient clients j with
    | none => simp [sendIfBound]
    | some c =>
      have hc : c.playerId = j := hcl _ (mapFind_mem hg)
      simp [sendIfBound, hc, hj]

theorem kicks_filter_of_mem {clients : List (Int × ClientInfo)}
    (hcl : ∀ e ∈ clients, e.2.playerId = e.1) {ids : List Int} (hnd : ids.Nodup) {id : Int}
    (h : id ∈ ids) {c : ClientInfo} (hc : getClient clients id = some c) :
    ((ids.map (fun j => sendIfBound (getClient clients j) kickMsg)).flatten).filter
      (fun d => decide (d.1.playerId = id)) = [(c, kickMsg)] := by
  induction ids with
  | nil => simp at h
  | cons j rest ih =>
    have hnd' := List.nodup_cons.1 hnd
    simp only [List.map_cons, List.flatten_cons, List.filter_append]
    by_cases hj : j = id
    · subst hj
      have hcid : c.playerId = j := hcl _ (mapFind_mem hc)
      rw [kicks_filter_of_not_mem hcl hnd'.1]
      simp [sendIfBound, hc, hcid]
    · have hr : id ∈ rest := by
        rcases List.mem_cons.1 h with h' | h'
        · exact absurd h'.symm hj
        · exact h'
      rw [ih hnd'.2 hr]
      cases hg : getClient clients j with
      | none => simp [sendIfBound]
      | some c' =>
        have hc' : c'.playerId = j := hcl _ (mapFind_mem hg)
        simp [sendIfBound, hc', hj]

theorem mapFind_filter_keep {α : Type} {k : Int} (q : Int → Bool) (hq : q k = true)
    (m : List (Int × α)) : mapFind k (m.filter (fun e => q e.1)) = mapFind k m := by
  induction m with
  | nil => rfl
  | cons a rest ih =>
    obtain ⟨k', v'⟩ := a
    by_cases h1 : k' = k
    · subst h1
      simp [List.filter_cons, hq, mapFind]
    · by_cases h2 : q k' = true
      · simp [List.filter_cons, h2, mapFind, h1, ih]
      · simp [List.filter_cons, h2, mapFind, h1, ih]

theorem mapFind_filter_drop {α : Type} {k : Int} (q : Int → Bool) (hq : q k = false)
    (m : List (Int × α)) : mapFind k (m.filter (fun e => q e.1)) = none := by
  rw [mapFind_eq_none_iff]
  intro e he hk
  have := (List.mem_filter.1 he).2
  rw [hk, hq] at this
  cases this

theorem mem_playersToRemove_of_find {s : GameServer} (wf : WellFormed s) {playerId : Int}
    {p : Player} (h : mapFind playerId s.players = some p) (now : TimePoint) :
    playerId ∈ playersToRemove s.players now ↔
      (INACTIVITY_TIMEOUT_SECONDS + 1) * TICKS_PER_SECOND ≤ now - p.lastActivity := by
  have h11 : (INACTIVITY_TIMEOUT_SECONDS + 1) * TICKS_PER_SECOND = 11 * TICKS_PER_SECOND := by
    decide
  rw [h11, mem_playersToRemove]
  constructor
  · rintro ⟨e, he, hc, hid⟩
    have hk : e.1 = playerId := by rw [← wf.playerIds e he, hid]
    have hf : mapFind e.1 s.players = some e.2 := mapFind_of_mem wf.playersAsc he
    rw [hk, h] at hf
    simp only [Option.some.injEq] at hf
    rw [hf]
    exact hc
  · intro hc
    exact ⟨(playerId, p), mapFind_mem h, hc, wf.playerIds _ (mapFind_mem h)⟩

/-- C7 (as the code has it): in a sweep at time `now`, a registered player is
evicted (removed from the registry and from the peer bindings, and sent exactly
one KICK) if and only if at least INACTIVITY_TIMEOUT_SECONDS + 1 = 11 whole
seconds have passed since the player's lastActivity; otherwise the player and
the binding are kept as they are and no datagram is sent to that peer. -/
theorem C7_evicted_iff_eleven_seconds (s : GameServer) (hs : Reachable s) (now : TimePoint)
    (playerId : Int) (p : Player) (h : mapFind playerId s.players = some p) :
    ∃ c, getClient s.clients playerId = some c ∧
      ((INACTIVITY_TIMEOUT_SECONDS + 1) * TICKS_PER_SECOND ≤ now - p.lastActivity →
        mapFind playerId (checkInactivePlayers s now).1.players = none ∧
        getClient (checkInactivePlayers s now).1.clients playerId = none ∧
        (checkInactivePlayers s now).2.filter (fun d => decide (d.1.playerId = playerId)) =
          [(c, [Tok.word "KICK", Tok.word "Inactivity", Tok.word "timeout"])]) ∧
      (now - p.lastActivity < (INACTIVITY_TIMEOUT_SECONDS + 1) * TICKS_PER_SECOND →
        mapFind playerId (checkInactivePlayers s now).1.players = some p ∧
        getClient (checkInactivePlayers s now).1.clients playerId = some c ∧
        (checkInactivePlayers s now).2.filter (fun d => decide (d.1.playerId = playerId)) =
          []) := by
  have wf := wellFormed_of_reachable hs
  obtain ⟨_, c, hc, _⟩ := wf.bound h
  have hmem := mem_playersToRemove_of_find wf h now
  have hnd := playersToRemove_nodup wf.playersAsc wf.playerIds now
  have hout : (checkInactivePlayers s now).2 =
      ((playersToRemove s.players now).map
        (fun j => sendIfBound (getClient s.clients j) kickMsg)).flatten := by
    simp only [checkInactivePlayers]
    rw [foldl_removePlayer_out _ hnd]
    simp
  refine ⟨c, hc, ?_, ?_⟩
  · intro hcond
    have hin := hmem.2 hcond
    have hq : (fun j : Int => decide (j ∉ playersToRemove s.players now)) playerId = false := by
      simpa using hin
    refine ⟨?_, ?_, ?_⟩
    · rw [checkInactivePlayers_state]
      exact mapFind_filter_drop (fun j => decide (j ∉ playersToRemove s.players now)) hq _
    · rw [checkInactivePlayers_state]
      exact mapFind_filter_drop (fun j => decide (j ∉ playersToRemove s.players now)) hq _
    · rw [hout]
      exact kicks_filter_of_mem wf.clientIds hnd hin hc
  · intro hcond
    have hnin : playerId ∉ playersToRemove s.players now :=
      fun hin => not_le.2 hcond (hmem.1 hin)
    have hq : (fun j : Int => decide (j ∉ playersToRemove s.players now)) playerId = true := by
      simpa using hnin
    refine ⟨?_, ?_, ?_⟩
    · rw [checkInactivePlayers_state]
      exact (mapFind_filter_keep
        (fun j => decide (j ∉ playersToRemove s.players now)) hq _).trans h
    · rw [checkInactivePlayers_state]
      exact (mapFind_filter_keep
        (fun j => decide (j ∉ playersToRemove s.players now)) hq _).trans hc
    · rw [hout]
      exact kicks_filter_of_not_mem wf.clientIds hnin

theorem C7_evicted_iff_eleven_seconds_witness :
    ∃ c, getClient (run (initial ⟨5, 5⟩ 0)
        [Event.frame 0 ⟨5, 4⟩ ⟨7, 7, -1⟩ (Message.join "alice")]).1.clients 1 = some c ∧
      ((INACTIVITY_TIMEOUT_SECONDS + 1) * TICKS_PER_SECOND ≤ 11000000000 - 0 →
        mapFind 1 (checkInactivePlayers (run (initial ⟨5, 5⟩ 0)
          [Event.frame 0 ⟨5, 4⟩ ⟨7, 7, -1⟩ (Message.join "alice")]).1
          11000000000).1.players = none ∧
        getClient (checkInactivePlayers (run (initial ⟨5, 5⟩ 0)
          [Event.frame 0 ⟨5, 4⟩ ⟨7, 7, -1⟩ (Message.join "alice")]).1
          11000000000).1.clients 1 = none ∧
        (checkInactivePlayers (run (initial ⟨5, 5⟩ 0)
          [Event.frame 0 ⟨5, 4⟩ ⟨7, 7, -1⟩ (Message.join "alice")]).1
          11000000000).2.filter (fun d => decide (d.1.playerId = 1)) =
          [(c, [Tok.word "KICK", Tok.word "Inactivity", Tok.word "timeout"])]) ∧
      (11000000000 - 0 < (INACTIVITY_TIMEOUT_SECONDS + 1) * TICKS_PER_SECOND →
        mapFind 1 (checkInactivePlayers (run (initial ⟨5, 5⟩ 0)
          [Event.frame 0 ⟨5, 4⟩ ⟨7, 7, -1⟩ (Message.join "alice")]).1
          11000000000).1.players = some ⟨1, "alice", 5, 4, 0, 0⟩ ∧
        getClient (checkInactivePlayers (run (initial ⟨5, 5⟩ 0)
          [Event.frame 0 ⟨5, 4⟩ ⟨7, 7, -1⟩ (Message.join "alice")]).1
          11000000000).1.clients 1 = some c ∧
        (checkInactivePlayers (run (initial ⟨5, 5⟩ 0)
          [Event.frame 0 ⟨5, 4⟩ ⟨7, 7, -1⟩ (Message.join "alice")]).1
          11000000000).2.filter (fun d => decide (d.1.playerId = 1)) = []) :=
  C7_evicted_iff_eleven_seconds _ ⟨⟨5, 5⟩, 0, _, rfl⟩ 11000000000 1
    ⟨1, "alice", 5, 4, 0, 0⟩ (by decide)

/-- C7 as stated fails: a player that joined at tick 0 has been idle for 10.5
seconds at tick 10500000000, which exceeds the 10 second threshold, yet the
sweep at that time keeps the player and the binding and sends nothing. -/
theorem C7_counterexample :
    mapFind 1 (run (initial ⟨5, 5⟩ 0)
      [Event.frame 0 ⟨5, 4⟩ ⟨7, 7, -1⟩ (Message.join "alice")]).1.players
      = some ⟨1, "alice", 5, 4, 0, 0⟩ ∧
    INACTIVITY_TIMEOUT_SECONDS * TICKS_PER_SECOND < 10500000000 - 0 ∧
    mapFind 1 (checkInactivePlayers (run (initial ⟨5, 5⟩ 0)
      [Event.frame 0 ⟨5, 4⟩ ⟨7, 7, -1⟩ (Message.join "alice")]).1 10500000000).1.players
      = some ⟨1, "alice", 5, 4, 0, 0⟩ ∧
    getClient (checkInactivePlayers (run (initial ⟨5, 5⟩ 0)
      [Event.frame 0 ⟨5, 4⟩ ⟨7, 7, -1⟩ (Message.join "alice")]).1 10500000000).1.clients 1
      = some ⟨7, 7, 1⟩ ∧
    (checkInactivePlayers (run (initial ⟨5, 5⟩ 0)
      [Event.frame 0 ⟨5, 4⟩ ⟨7, 7, -1⟩ (Message.join "alice")]).1 10500000000).2 = [] := by
  decide

/-! ## Joining -/

theorem mem_mapSet_self {α : Type} (k : Int) (v : α) (m : List (Int × α)) :
    (k, v) ∈ mapSet k v m :=
  mapFind_mem (mapFind_mapSet_self k v m)

/-- A step that is not a `JOIN` leaves a server without players as it is and
sends nothing. -/
theorem step_of_no_players {s : GameServer} (h : s.players = []) {ev : Event}
    (hj : ev.isJoin = false) : step s ev = (s, []) := by
  cases ev with
  | frame now rnd clientInfo msg =>
    cases msg with
    | join username => simp [Event.isJoin] at hj
    | move playerId dirStr =>
      simp only [step, processMessage]
      exact processMove_of_none (by rw [h]; rfl) _ _ _
    | other => rfl
  | sweep now =>
    simp only [step, checkInactivePlayers, playersToRemove, h, List.filterMap_nil,
      List.foldl_nil]

theorem run_of_no_join {s : GameServer} (h : s.players = []) {evs : List Event}
    (hj : joinCount evs = 0) : run s evs = (s, []) := by
  induction evs with
  | nil => rfl
  | cons ev es ih =>
    have hev : ev.isJoin = false := by
      cases hb : ev.isJoin with
      | false => rfl
      | true => simp [joinCount, List.filter_cons, hb] at hj
    have hes : joinCount es = 0 := by
      simpa [joinCount, List.filter_cons, hev] using hj
    simp only [run, step_of_no_players h hev, ih hes, List.append_nil]

/-- C8: a JOIN frame makes `processMessage` send, in this order, WELCOME id x y
to the joining peer (id the newly assigned identity, (x, y) the start position
stored for it), TREASURE with the current treasure to the joining peer, then
one SCORES snapshot to every bound peer, the joining one included, which lists
the new player with score 0. The first JOIN of a match gets identity 1, and
its two positions are in the 10x10 grid when the generator's draws are. -/
theorem C8_join_frames (s : GameServer) (now : TimePoint) (rnd : Position)
    (clientInfo : ClientInfo) (username : String) :
    ((processMessage s now rnd clientInfo (Message.join username)).2 =
        [(⟨clientInfo.addr, clientInfo.port, s.nextPlayerId⟩,
            [Tok.word "WELCOME", Tok.num s.nextPlayerId, Tok.num rnd.x, Tok.num rnd.y]),
         (⟨clientInfo.addr, clientInfo.port, s.nextPlayerId⟩,
            [Tok.word "TREASURE", Tok.num s.treasure.x, Tok.num s.treasure.y])] ++
        (processMessage s now rnd clientInfo (Message.join username)).1.clients.map (fun e =>
          (e.2, scoresMsg
            (processMessage s now rnd clientInfo (Message.join username)).1.players)) ∧
      storedPos (processMessage s now rnd clientInfo (Message.join username)).1
        s.nextPlayerId = some (rnd.x, rnd.y) ∧
      getClient (processMessage s now rnd clientInfo (Message.join username)).1.clients
        s.nextPlayerId = some ⟨clientInfo.addr, clientInfo.port, s.nextPlayerId⟩ ∧
      (s.nextPlayerId, 0) ∈
        scorePairs (processMessage s now rnd clientInfo (Message.join username)).1.players ∧
      (processMessage s now rnd clientInfo (Message.join username)).1.treasure = s.treasure) ∧
    (∀ (t0 : Position) (t : TimePoint) (evs : List Event), joinCount evs = 0 →
      InGrid t0.x t0.y → InGrid rnd.x rnd.y →
      ∃ x y tx ty,
        (processMessage (run (initial t0 t) evs).1 now rnd clientInfo
            (Message.join username)).2 =
          [(⟨clientInfo.addr, clientInfo.port, 1⟩,
              [Tok.word "WELCOME", Tok.num 1, Tok.num x, Tok.num y]),
           (⟨clientInfo.addr, clientInfo.port, 1⟩,
              [Tok.word "TREASURE", Tok.num tx, Tok.num ty]),
           (⟨clientInfo.addr, clientInfo.port, 1⟩,
              [Tok.word "SCORES", Tok.num 1, Tok.num 1, Tok.num 0])] ∧
        (1 ≤ x ∧ x ≤ 10 ∧ 1 ≤ y ∧ y ≤ 10) ∧ (1 ≤ tx ∧ tx ≤ 10 ∧ 1 ≤ ty ∧ ty ≤ 10)) := by
  refine ⟨⟨?_, ?_, ?_, ?_, ?_⟩, ?_⟩
  · simp [processMessage, broadcastScores, broadcastMessage, welcomeMsg, treasureMsg,
      Player.create]
  · simp [processMessage, storedPos, mapFind_mapSet_self, Player.create]
  · simp [processMessage, getClient, registerClient, mapFind_mapSet_self, Player.create]
  · simp only [processMessage, scorePairs, List.mem_map, Player.create]
    exact ⟨_, mem_mapSet_self _ _ _, rfl⟩
  · simp [processMessage]
  · intro t0 t evs hj h0 hr
    refine ⟨rnd.x, rnd.y, t0.x, t0.y, ?_, hr, h0⟩
    rw [run_of_no_join (by rfl) hj]
    simp [processMessage, broadcastScores, broadcastMessage, welcomeMsg, treasureMsg,
      Player.create, initial, GameServer.start, GameServer.create, mapSet, registerClient,
      scoresMsg, scorePairs, pairToks]

theorem C8_join_frames_witness :
    joinCount [Event.frame 3 ⟨2, 2⟩ ⟨7, 7, -1⟩ (Message.move 1 "UP"), Event.sweep 4] = 0 ∧
    InGrid 5 5 ∧ InGrid 10 1 ∧
    ∃ x y tx ty,
      (processMessage (run (initial ⟨5, 5⟩ 0)
          [Event.frame 3 ⟨2, 2⟩ ⟨7, 7, -1⟩ (Message.move 1 "UP"), Event.sweep 4]).1
          6 ⟨10, 1⟩ ⟨7, 7, -1⟩ (Message.join "Alice")).2 =
        [(⟨7, 7, 1⟩, [Tok.word "WELCOME", Tok.num 1, Tok.num x, Tok.num y]),
         (⟨7, 7, 1⟩, [Tok.word "TREASURE", Tok.num tx, Tok.num ty]),
         (⟨7, 7, 1⟩, [Tok.word "SCORES", Tok.num 1, Tok.num 1, Tok.num 0])] ∧
      (1 ≤ x ∧ x ≤ 10 ∧ 1 ≤ y ∧ y ≤ 10) ∧ (1 ≤ tx ∧ tx ≤ 10 ∧ 1 ≤ ty ∧ ty ≤ 10) :=
  ⟨by decide, by decide, by decide,
    (C8_join_frames (initial ⟨5, 5⟩ 0) 6 ⟨10, 1⟩ ⟨7, 7, -1⟩ "Alice").2 ⟨5, 5⟩ 0
      [Event.frame 3 ⟨2, 2⟩ ⟨7, 7, -1⟩ (Message.move 1 "UP"), Event.sweep 4]
      (by decide) (by decide) (by decide)⟩

/-! ## Identities are handed out in sequence -/

theorem welcomeIds_eq_nil {out : List Datagram}
    (h : ∀ d ∈ out, d.2.head? ≠ some (Tok.word "WELCOME")) : welcomeIds out = [] := by
  simp only [welcomeIds, List.filterMap_eq_nil_iff]
  intro d hd
  have hh := h d hd
  rcases d with ⟨c, _ | ⟨_ | _, _ | ⟨_ | _, _⟩⟩⟩ <;> simp_all [welcomeId]

/-- Every frame sent by `processMove` is a POS, COLLECTED, TREASURE or SCORES
frame. -/
theorem processMove_out_heads (s : GameServer) (now : TimePoint) (rnd : Position)
    (playerId : Int) (dir : Direction) :
    ∀ d ∈ (processMove s now rnd playerId dir).2,
      d.2.head? = some (Tok.word "POS") ∨ d.2.head? = some (Tok.word "COLLECTED") ∨
      d.2.head? = some (Tok.word "TREASURE") ∨ d.2.head? = some (Tok.word "SCORES") := by
  intro d hd
  cases h : mapFind playerId s.players with
  | none => simp [processMove_of_none h] at hd
  | some p =>
    rw [processMove_of_find h] at hd
    have hpos : ∀ d ∈ sendIfBound (getClient s.clients p.id)
        [Tok.word "POS", Tok.num p.id, Tok.num (applyMove p dir).x,
          Tok.num (applyMove p dir).y], d.2.head? = some (Tok.word "POS") := by
      intro d hd
      cases hg : getClient s.clients p.id with
      | none => simp [sendIfBound, hg] at hd
      | some c =>
        simp only [sendIfBound, hg, List.mem_singleton] at hd
        subst hd
        rfl
    by_cases hC : (applyMove p dir).x = s.treasure.x ∧ (applyMove p dir).y = s.treasure.y
    · rw [moveFound_out_pickup s now rnd playerId p dir hC] at hd
      simp only [List.mem_append, broadcastMessage, List.mem_map] at hd
      rcases hd with ((hd | ⟨_, _, rfl⟩) | ⟨_, _, rfl⟩) | ⟨_, _, rfl⟩
      · exact Or.inl (hpos d hd)
      · exact Or.inr (Or.inl rfl)
      · exact Or.inr (Or.inr (Or.inl rfl))
      · exact Or.inr (Or.inr (Or.inr rfl))
    · rw [moveFound_out_noPickup s now rnd playerId p dir hC] at hd
      exact Or.inl (hpos d hd)

theorem foldl_removePlayer_out_kick (ids : List Int) (acc : GameServer × List Datagram)
    (h : ∀ d ∈ acc.2, d.2 = kickMsg) : ∀ d ∈ (ids.foldl removePlayer acc).2, d.2 = kickMsg := by
  induction ids generalizing acc with
  | nil => exact h
  | cons id rest ih =>
    rw [List.foldl_cons]
    apply ih
    intro d hd
    rw [removePlayer_out] at hd
    rcases List.mem_append.1 hd with h1 | h1
    · exact h d h1
    · cases hg : getClient acc.1.clients id with
      | none => simp [sendIfBound, hg] at h1
      | some c =>
        simp only [sendIfBound, hg, List.mem_singleton] at h1
        rw [h1]

/-- Every frame sent by an inactivity sweep is the KICK frame. -/
theorem checkInactivePlayers_out_kick (s : GameServer) (now : TimePoint) :
    ∀ d ∈ (checkInactivePlayers s now).2, d.2 = kickMsg :=
  foldl_removePlayer_out_kick _ _ (by simp)

theorem processMove_nextPlayerId (s : GameServer) (now : TimePoint) (rnd : Position)
    (playerId : Int) (dir : Direction) :
    (processMove s now rnd playerId dir).1.nextPlayerId = s.nextPlayerId := by
  cases h : mapFind playerId s.players with
  | none => rw [processMove_of_none h]
  | some p =>
    rw [processMove_of_find h]
    rcases moveFound_state s now rnd playerId p dir with ⟨_, _, hs⟩ | ⟨_, hs⟩ <;> rw [hs]

/-- What one step does to the next identity and to the WELCOME frames. -/
theorem step_welcome (s : GameServer) (ev : Event) :
    (ev.isJoin = true ∧ welcomeIds (step s ev).2 = [s.nextPlayerId] ∧
      (step s ev).1.nextPlayerId = s.nextPlayerId + 1) ∨
    (ev.isJoin = false ∧ welcomeIds (step s ev).2 = [] ∧
      (step s ev).1.nextPlayerId = s.nextPlayerId) := by
  cases ev with
  | frame now rnd clientInfo msg =>
    cases msg with
    | join username =>
      left
      refine ⟨rfl, ?_, rfl⟩
      simp only [step, processMessage, welcomeIds, List.filterMap_append, broadcastScores,
        broadcastMessage, List.filterMap_map]
      have hz : List.filterMap (welcomeId ∘ fun e : Int × ClientInfo =>
          (e.2, scoresMsg (mapSet (Player.create now s.nextPlayerId username rnd.x rnd.y).id
            (Player.create now s.nextPlayerId username rnd.x rnd.y) s.players)))
          (registerClient s.clients (Player.create now s.nextPlayerId username rnd.x rnd.y).id
            ⟨clientInfo.addr, clientInfo.port,
              (Player.create now s.nextPlayerId username rnd.x rnd.y).id⟩) = [] := by
        rw [List.filterMap_eq_nil_iff]
        intro e _
        simp [welcomeId, scoresMsg]
      rw [hz]
      simp [welcomeId, welcomeMsg, treasureMsg, Player.create]
    | move playerId dirStr =>
      right
      refine ⟨rfl, ?_, processMove_nextPlayerId _ _ _ _ _⟩
      apply welcomeIds_eq_nil
      intro d hd
      rcases processMove_out_heads s now rnd playerId _ d hd with h | h | h | h <;>
        rw [h] <;> decide
    | other => right; exact ⟨rfl, rfl, rfl⟩
  | sweep now =>
    right
    refine ⟨rfl, ?_, ?_⟩
    · apply welcomeIds_eq_nil
      intro d hd
      rw [show (step s (Event.sweep now)).2 = (checkInactivePlayers s now).2 from rfl] at hd
      rw [checkInactivePlayers_out_kick s now d hd]
      decide
    · simp only [step, checkInactivePlayers_state]

theorem run_welcome (s : GameServer) (evs : List Event) :
    welcomeIds (run s evs).2 =
        (List.range (joinCount evs)).map (fun (i : Nat) => s.nextPlayerId + (i : Int)) ∧
      (run s evs).1.nextPlayerId = s.nextPlayerId + (joinCount evs : Int) := by
  induction evs generalizing s with
  | nil => simp [run, welcomeIds, joinCount]
  | cons ev es ih =>
    obtain ⟨ih1, ih2⟩ := ih (step s ev).1
    simp only [run, welcomeIds, List.filterMap_append] at ih1 ⊢
    rcases step_welcome s ev with ⟨hj, hw, hn⟩ | ⟨hj, hw, hn⟩
    · have hc : joinCount (ev :: es) = joinCount es + 1 := by
        simp [joinCount, List.filter_cons, hj]
      simp only [welcomeIds] at hw
      rw [hw, ih1, ih2, hn, hc, List.range_succ_eq_map]
      refine ⟨?_, by push_cast; omega⟩
      simp only [List.map_cons, List.map_map, List.singleton_append, Nat.cast_zero, add_zero,
        List.cons.injEq, true_and]
      apply List.map_congr_left
      intro i _
      simp only [Function.comp, Nat.succ_eq_add_one]
      push_cast
      omega
    · have hc : joinCount (ev :: es) = joinCount es := by
        simp [joinCount, List.filter_cons, hj]
      simp only [welcomeIds] at hw
      rw [hw, ih1, ih2, hn, hc]
      exact ⟨rfl, rfl⟩

/-- C9: in every run of JOIN frames, MOVE frames and inactivity sweeps the k-th
JOIN processed is assigned identity k: the WELCOME frames of the run carry
1, 2, ..., in this order, so no identity is announced twice, and after any run
the next JOIN stores its player under the number of earlier JOINs plus one,
whatever was evicted in between. -/
theorem C9_identities_sequential (t0 : Position) (t : TimePoint) (evs : List Event) :
    welcomeIds (run (initial t0 t) evs).2 =
        (List.range (joinCount evs)).map (fun (i : Nat) => (i : Int) + 1) ∧
      (welcomeIds (run (initial t0 t) evs).2).Nodup ∧
      (run (initial t0 t) evs).1.nextPlayerId = (joinCount evs : Int) + 1 ∧
      ∀ (now : TimePoint) (rnd : Position) (clientInfo : ClientInfo) (username : String),
        mapFind ((joinCount evs : Int) + 1)
          (processMessage (run (initial t0 t) evs).1 now rnd clientInfo
            (Message.join username)).1.players =
          some ⟨(joinCount evs : Int) + 1, username, rnd.x, rnd.y, 0, now⟩ := by
  obtain ⟨h1, h2⟩ := run_welcome (initial t0 t) evs
  have hi : (initial t0 t).nextPlayerId = 1 := rfl
  rw [hi] at h1 h2
  have h1' : welcomeIds (run (initial t0 t) evs).2 =
      (List.range (joinCount evs)).map (fun (i : Nat) => (i : Int) + 1) := by
    rw [h1]
    apply List.map_congr_left
    intro i _
    omega
  have h2' : (run (initial t0 t) evs).1.nextPlayerId = (joinCount evs : Int) + 1 := by
    rw [h2]; omega
  refine ⟨h1', ?_, h2', ?_⟩
  · rw [h1']
    refine List.Nodup.map ?_ (List.nodup_range _)
    intro a b hab
    simp only at hab
    omega
  · intro now rnd clientInfo username
    simp only [processMessage, Player.create, h2', mapFind_mapSet_self]

/-! ## The score snapshot -/

/-- C10: in every reachable state `broadcastScores` sends every bound peer the
frame `SCORES n id_1 s_1 ... id_n s_n` where n is the number of registered
players, the pairs are in strictly ascending identity order (so no identity
occurs twice), and a pair (id, score) is listed exactly when a player is
registered under id with that current score. -/
theorem C10_scores_snapshot (s : GameServer) (hs : Reachable s) :
    ∃ pairs : List (Int × Int),
      broadcastScores s = s.clients.map (fun e =>
        (e.2, Tok.word "SCORES" :: Tok.num (s.players.length : Int) :: pairToks pairs)) ∧
      pairs.length = s.players.length ∧
      pairs.Pairwise (fun a b => a.1 < b.1) ∧
      ∀ (id sc : Int), (id, sc) ∈ pairs ↔
        ∃ p, mapFind id s.players = some p ∧ p.score = sc := by
  have wf := wellFormed_of_reachable hs
  refine ⟨scorePairs s.players, rfl, by simp [scorePairs], ?_, ?_⟩
  · simp only [scorePairs, List.pairwise_map]
    refine List.Pairwise.imp_of_mem ?_ wf.playersAsc
    intro a b ha hb hab
    rw [wf.playerIds a ha, wf.playerIds b hb]
    exact hab
  · intro id sc
    simp only [scorePairs, List.mem_map, Prod.mk.injEq]
    constructor
    · rintro ⟨e, he, hid, hsc⟩
      refine ⟨e.2, ?_, hsc⟩
      rw [← hid, wf.playerIds e he]
      exact mapFind_of_mem wf.playersAsc he
    · rintro ⟨p, hp, hsc⟩
      exact ⟨(id, p), mapFind_mem hp, wf.playerIds _ (mapFind_mem hp), hsc⟩

theorem C10_scores_snapshot_witness :
    broadcastScores (run (initial ⟨5, 5⟩ 0)
      [Event.frame 0 ⟨5, 4⟩ ⟨7, 7, -1⟩ (Message.join "alice"),
       Event.frame 1 ⟨3, 3⟩ ⟨8, 8, -1⟩ (Message.join "bob"),
       Event.frame 2 ⟨9, 9⟩ ⟨7, 7, -1⟩ (Message.move 1 "DOWN")]).1 =
      [(⟨7, 7, 1⟩, [Tok.word "SCORES", Tok.num 2, Tok.num 1, Tok.num 1, Tok.num 2, Tok.num 0]),
       (⟨8, 8, 2⟩, [Tok.word "SCORES", Tok.num 2, Tok.num 1, Tok.num 1, Tok.num 2, Tok.num 0])]
    ∧ ∃ pairs : List (Int × Int),
      broadcastScores (run (initial ⟨5, 5⟩ 0)
        [Event.frame 0 ⟨5, 4⟩ ⟨7, 7, -1⟩ (Message.join "alice"),
         Event.frame 1 ⟨3, 3⟩ ⟨8, 8, -1⟩ (Message.join "bob"),
         Event.frame 2 ⟨9, 9⟩ ⟨7, 7, -1⟩ (Message.move 1 "DOWN")]).1 =
        (run (initial ⟨5, 5⟩ 0)
          [Event.frame 0 ⟨5, 4⟩ ⟨7, 7, -1⟩ (Message.join "alice"),
           Event.frame 1 ⟨3, 3⟩ ⟨8, 8, -1⟩ (Message.join "bob"),
           Event.frame 2 ⟨9, 9⟩ ⟨7, 7, -1⟩ (Message.move 1 "DOWN")]).1.clients.map (fun e =>
          (e.2, Tok.word "SCORES" :: Tok.num ((run (initial ⟨5, 5⟩ 0)
            [Event.frame 0 ⟨5, 4⟩ ⟨7, 7, -1⟩ (Message.join "alice"),
             Event.frame 1 ⟨3, 3⟩ ⟨8, 8, -1⟩ (Message.join "bob"),
             Event.frame 2 ⟨9, 9⟩ ⟨7, 7, -1⟩ (Message.move 1 "DOWN")]).1.players.length : Int)
            :: pairToks pairs)) ∧
      pairs.length = (run (initial ⟨5, 5⟩ 0)
        [Event.frame 0 ⟨5, 4⟩ ⟨7, 7, -1⟩ (Message.join "alice"),
         Event.frame 1 ⟨3, 3⟩ ⟨8, 8, -1⟩ (Message.join "bob"),
         Event.frame 2 ⟨9, 9⟩ ⟨7, 7, -1⟩ (Message.move 1 "DOWN")]).1.players.length ∧
      pairs.Pairwise (fun a b => a.1 < b.1) ∧
      ∀ (id sc : Int), (id, sc) ∈ pairs ↔
        ∃ p, mapFind id (run (initial ⟨5, 5⟩ 0)
          [Event.frame 0 ⟨5, 4⟩ ⟨7, 7, -1⟩ (Message.join "alice"),
           Event.frame 1 ⟨3, 3⟩ ⟨8, 8, -1⟩ (Message.join "bob"),
           Event.frame 2 ⟨9, 9⟩ ⟨7, 7, -1⟩ (Message.move 1 "DOWN")]).1.players = some p ∧
          p.score = sc :=
  ⟨by decide, C10_scores_snapshot _ ⟨⟨5, 5⟩, 0, _, rfl⟩⟩

/-! ## The position confirmation -/

theorem filter_broadcast_nil (clients : List (Int × ClientInfo)) (message : Frame)
    (q : Datagram → Bool) (h : ∀ c, q (c, message) = false) :
    (broadcastMessage clients message).filter q = [] := by
  rw [List.filter_eq_nil_iff]
  intro d hd
  simp only [broadcastMessage, List.mem_map] at hd
  obtain ⟨e, _, rfl⟩ := hd
  simp [h]

/-- C11 (as the code has it): for every MOVE by a registered, peer-bound
player, accepted or rejected, `processMove` sends exactly one POS frame; it goes
to that player's peer and carries the position stored after the move, which
after a rejected move is the unchanged position. -/
theorem C11_pos_sent_after_every_move (s : GameServer) (hs : Reachable s) (now : TimePoint)
    (rnd : Position) (playerId : Int) (dir : Direction) (p : Player) (c : ClientInfo)
    (h : mapFind playerId s.players = some p)
    (hc : getClient s.clients playerId = some c) :
    ∃ q, mapFind playerId (processMove s now rnd playerId dir).1.players = some q ∧
      (processMove s now rnd playerId dir).2.filter
          (fun d => decide (d.2.head? = some (Tok.word "POS"))) =
        [(c, [Tok.word "POS", Tok.num playerId, Tok.num q.x, Tok.num q.y])] := by
  have wf := wellFormed_of_reachable hs
  have hid : p.id = playerId := (wf.bound h).1
  refine ⟨_, processMove_find h now rnd dir, ?_⟩
  rw [processMove_of_find h]
  by_cases hC : (applyMove p dir).x = s.treasure.x ∧ (applyMove p dir).y = s.treasure.y
  · rw [moveFound_out_pickup s now rnd playerId p dir hC, hid, hc]
    simp only [List.filter_append]
    rw [filter_broadcast_nil _ _ _ (fun _ => by simp),
      filter_broadcast_nil _ _ _ (fun _ => by simp),
      filter_broadcast_nil _ _ _ (fun _ => by simp [scoresMsg])]
    simp [sendIfBound]
  · rw [moveFound_out_noPickup s now rnd playerId p dir hC, hid, hc]
    simp [sendIfBound]

theorem C11_pos_sent_after_every_move_witness :
    ∃ q, mapFind 1 (processMove (run (initial ⟨5, 5⟩ 0)
        [Event.frame 0 ⟨5, 4⟩ ⟨7, 7, -1⟩ (Message.join "alice")]).1
        3 ⟨2, 9⟩ 1 Direction.DOWN).1.players = some q ∧
      (processMove (run (initial ⟨5, 5⟩ 0)
        [Event.frame 0 ⟨5, 4⟩ ⟨7, 7, -1⟩ (Message.join "alice")]).1
        3 ⟨2, 9⟩ 1 Direction.DOWN).2.filter
          (fun d => decide (d.2.head? = some (Tok.word "POS"))) =
        [(⟨7, 7, 1⟩, [Tok.word "POS", Tok.num 1, Tok.num q.x, Tok.num q.y])] :=
  C11_pos_sent_after_every_move _ ⟨⟨5, 5⟩, 0, _, rfl⟩ 3 ⟨2, 9⟩ 1 Direction.DOWN
    ⟨1, "alice", 5, 4, 0, 0⟩ ⟨7, 7, 1⟩ (by decide) (by decide)

/-- C11 as stated fails: player 1 stands at (1, 1) and sends MOVE 1 LEFT, whose
candidate (0, 1) is outside the grid; the move is rejected, the stored position
stays (1, 1), and the server still sends POS 1 1 1 to the player's peer. -/
theorem C11_counterexample :
    mapFind 1 (run (initial ⟨5, 5⟩ 0)
      [Event.frame 0 ⟨1, 1⟩ ⟨7, 7, -1⟩ (Message.join "alice")]).1.players
      = some ⟨1, "alice", 1, 1, 0, 0⟩ ∧
    getClient (run (initial ⟨5, 5⟩ 0)
      [Event.frame 0 ⟨1, 1⟩ ⟨7, 7, -1⟩ (Message.join "alice")]).1.clients 1
      = some ⟨7, 7, 1⟩ ∧
    ¬ InGrid (1 - 1) 1 ∧
    storedPos (processMessage (run (initial ⟨5, 5⟩ 0)
      [Event.frame 0 ⟨1, 1⟩ ⟨7, 7, -1⟩ (Message.join "alice")]).1
      3 ⟨2, 9⟩ ⟨7, 7, -1⟩ (Message.move 1 "LEFT")).1 1 = some (1, 1) ∧
    (processMessage (run (initial ⟨5, 5⟩ 0)
      [Event.frame 0 ⟨1, 1⟩ ⟨7, 7, -1⟩ (Message.join "alice")]).1
      3 ⟨2, 9⟩ ⟨7, 7, -1⟩ (Message.move 1 "LEFT")).2 =
      [(⟨7, 7, 1⟩, [Tok.word "POS", Tok.num 1, Tok.num 1, Tok.num 1])] := by
  decide

/-! ## Direction tokens -/

/-- C12 (as the code has it): a MOVE frame that names a registered player and
whose direction token is none of UP, DOWN, LEFT, RIGHT is not ignored: it is
processed exactly as a move UP for W or w, LEFT for A or a, RIGHT for D or d,
and DOWN for S, s and every other token, so the player's lastActivity becomes
the current time and the stored position is the one that move gives. -/
theorem C12_unknown_direction_is_a_move (s : GameServer) (now : TimePoint) (rnd : Position)
    (clientInfo : ClientInfo) (playerId : Int) (tok : String) (p : Player)
    (h : mapFind playerId s.players = some p)
    (htok : tok ≠ "UP" ∧ tok ≠ "DOWN" ∧ tok ≠ "LEFT" ∧ tok ≠ "RIGHT") :
    processMessage s now rnd clientInfo (Message.move playerId tok) =
        processMove s now rnd playerId
          (if tok = "W" ∨ tok = "w" then Direction.UP
           else if tok = "A" ∨ tok = "a" then Direction.LEFT
           else if tok = "D" ∨ tok = "d" then Direction.RIGHT
           else Direction.DOWN) ∧
      ∃ q, mapFind playerId
          (processMessage s now rnd clientInfo (Message.move playerId tok)).1.players = some q ∧
        q.lastActivity = now ∧
        ((tok ≠ "W" ∧ tok ≠ "w" ∧ tok ≠ "A" ∧ tok ≠ "a" ∧ tok ≠ "D" ∧ tok ≠ "d") →
          InGrid p.x (p.y + 1) → q.x = p.x ∧ q.y = p.y + 1) := by
  obtain ⟨h1, h2, h3, h4⟩ := htok
  have hdir : stringToDirection tok =
      (if tok = "W" ∨ tok = "w" then Direction.UP
       else if tok = "A" ∨ tok = "a" then Direction.LEFT
       else if tok = "D" ∨ tok = "d" then Direction.RIGHT
       else Direction.DOWN) := by
    simp only [stringToDirection, h1, h2, h3, h4, false_or]
    by_cases hW : tok = "W" ∨ tok = "w"
    · simp only [hW, if_true]
    · simp only [hW, if_false]
      by_cases hS : tok = "S" ∨ tok = "s"
      · have hA : ¬ (tok = "A" ∨ tok = "a") := by
          rcases hS with e | e <;> subst e <;> decide
        have hD : ¬ (tok = "D" ∨ tok = "d") := by
          rcases hS with e | e <;> subst e <;> decide
        simp only [hS, hA, hD, if_true, if_false]
      · simp only [hS, if_false]
  refine ⟨by simp only [processMessage, hdir], ?_⟩
  simp only [processMessage]
  refine ⟨_, processMove_find h now rnd _, rfl, ?_⟩
  rintro ⟨a1, a2, a3, a4, a5, a6⟩ hin
  have hd : stringToDirection tok = Direction.DOWN := by
    rw [hdir]
    simp only [a1, a2, a3, a4, a5, a6, or_self, if_false]
  rw [hd]
  exact @applyMove_of_valid p Direction.DOWN hin

theorem C12_unknown_direction_is_a_move_witness :
    processMessage (run (initial ⟨9, 9⟩ 0)
        [Event.frame 0 ⟨5, 4⟩ ⟨7, 7, -1⟩ (Message.join "alice")]).1
        3 ⟨2, 2⟩ ⟨7, 7, -1⟩ (Message.move 1 "JUMP") =
      processMove (run (initial ⟨9, 9⟩ 0)
        [Event.frame 0 ⟨5, 4⟩ ⟨7, 7, -1⟩ (Message.join "alice")]).1
        3 ⟨2, 2⟩ 1
        (if "JUMP" = "W" ∨ "JUMP" = "w" then Direction.UP
         else if "JUMP" = "A" ∨ "JUMP" = "a" then Direction.LEFT
         else if "JUMP" = "D" ∨ "JUMP" = "d" then Direction.RIGHT
         else Direction.DOWN) ∧
      ∃ q, mapFind 1
          (processMessage (run (initial ⟨9, 9⟩ 0)
            [Event.frame 0 ⟨5, 4⟩ ⟨7, 7, -1⟩ (Message.join "alice")]).1
            3 ⟨2, 2⟩ ⟨7, 7, -1⟩ (Message.move 1 "JUMP")).1.players = some q ∧
        q.lastActivity = 3 ∧
        (("JUMP" ≠ "W" ∧ "JUMP" ≠ "w" ∧ "JUMP" ≠ "A" ∧ "JUMP" ≠ "a" ∧ "JUMP" ≠ "D" ∧
            "JUMP" ≠ "d") →
          InGrid 5 (4 + 1) → q.x = 5 ∧ q.y = 4 + 1) :=
  C12_unknown_direction_is_a_move _ 3 ⟨2, 2⟩ ⟨7, 7, -1⟩ 1 "JUMP" ⟨1, "alice", 5, 4, 0, 0⟩
    (by decide) (by decide)

/-- C12 as stated fails: player 1 stands at (5, 4) and the frame MOVE 1 JUMP,
whose direction token is none of UP, DOWN, LEFT, RIGHT, moves the player to
(5, 5) and makes the server send POS 1 5 5. -/
theorem C12_counterexample :
    ("JUMP" ≠ "UP" ∧ "JUMP" ≠ "DOWN" ∧ "JUMP" ≠ "LEFT" ∧ "JUMP" ≠ "RIGHT") ∧
    storedPos (run (initial ⟨9, 9⟩ 0)
      [Event.frame 0 ⟨5, 4⟩ ⟨7, 7, -1⟩ (Message.join "alice")]).1 1 = some (5, 4) ∧
    storedPos (processMessage (run (initial ⟨9, 9⟩ 0)
      [Event.frame 0 ⟨5, 4⟩ ⟨7, 7, -1⟩ (Message.join "alice")]).1
      3 ⟨2, 2⟩ ⟨7, 7, -1⟩ (Message.move 1 "JUMP")).1 1 = some (5, 5) ∧
    (processMessage (run (initial ⟨9, 9⟩ 0)
      [Event.frame 0 ⟨5, 4⟩ ⟨7, 7, -1⟩ (Message.join "alice")]).1
      3 ⟨2, 2⟩ ⟨7, 7, -1⟩ (Message.move 1 "JUMP")).2 =
      [(⟨7, 7, 1⟩, [Tok.word "POS", Tok.num 1, Tok.num 5, Tok.num 5])] := by
  decide

/-! ## Moves of unknown players -/

/-- C13: a MOVE frame whose player id is not in the registry, with any
direction token, leaves the whole server state as it is (players, treasure,
next identity, peer bindings; no entry is inserted) and sends nothing. -/
theorem C13_unknown_player_move_ignored (s : GameServer) (now : TimePoint) (rnd : Position)
    (clientInfo : ClientInfo) (playerId : Int) (dirStr : String)
    (h : mapFind playerId s.players = none) :
    processMessage s now rnd clientInfo (Message.move playerId dirStr) = (s, []) := by
  simp only [processMessage]
  exact processMove_of_none h now rnd _

theorem C13_unknown_player_move_ignored_witness :
    mapFind 1 (run (initial ⟨5, 5⟩ 0)
      [Event.frame 0 ⟨5, 4⟩ ⟨7, 7, -1⟩ (Message.join "alice"),
       Event.frame 1 ⟨3, 3⟩ ⟨8, 8, -1⟩ (Message.join "bob"),
       Event.frame 9000000000 ⟨1, 1⟩ ⟨8, 8, -1⟩ (Message.move 2 "UP"),
       Event.sweep 12000000000]).1.players = none ∧
    processMessage (run (initial ⟨5, 5⟩ 0)
      [Event.frame 0 ⟨5, 4⟩ ⟨7, 7, -1⟩ (Message.join "alice"),
       Event.frame 1 ⟨3, 3⟩ ⟨8, 8, -1⟩ (Message.join "bob"),
       Event.frame 9000000000 ⟨1, 1⟩ ⟨8, 8, -1⟩ (Message.move 2 "UP"),
       Event.sweep 12000000000]).1
      12000000001 ⟨6, 6⟩ ⟨7, 7, -1⟩ (Message.move 1 "DOWN") =
      ((run (initial ⟨5, 5⟩ 0)
        [Event.frame 0 ⟨5, 4⟩ ⟨7, 7, -1⟩ (Message.join "alice"),
         Event.frame 1 ⟨3, 3⟩ ⟨8, 8, -1⟩ (Message.join "bob"),
         Event.frame 9000000000 ⟨1, 1⟩ ⟨8, 8, -1⟩ (Message.move 2 "UP"),
         Event.sweep 12000000000]).1, []) :=
  ⟨by decide,
    C13_unknown_player_move_ignored _ 12000000001 ⟨6, 6⟩ ⟨7, 7, -1⟩ 1 "DOWN" (by decide)⟩

/-! ## Moving there and back -/

theorem processMove_find_pos {s : GameServer} {playerId : Int} {p : Player}
    (h : mapFind playerId s.players = some p) (now : TimePoint) (rnd : Position)
    (dir : Direction) :
    ∃ q, mapFind playerId (processMove s now rnd playerId dir).1.players = some q ∧
      q.x = (applyMove p dir).x ∧ q.y = (applyMove p dir).y :=
  ⟨_, processMove_find h now rnd dir, rfl, rfl⟩

/-- C14: for a registered player at an interior position (1 < x < MAZE_WIDTH
and 1 < y < MAZE_HEIGHT), MOVE UP followed by MOVE DOWN, and MOVE LEFT followed
by MOVE RIGHT, leave the stored position equal to the original one, for every
treasure position, every relocation drawn in between and both arrival times. -/
theorem C14_there_and_back (s : GameServer) (now1 now2 : TimePoint) (rnd1 rnd2 : Position)
    (c1 c2 : ClientInfo) (playerId : Int) (p : Player)
    (h : mapFind playerId s.players = some p)
    (hx : 1 < p.x ∧ p.x < MAZE_WIDTH) (hy : 1 < p.y ∧ p.y < MAZE_HEIGHT) :
    storedPos (processMessage
        (processMessage s now1 rnd1 c1 (Message.move playerId "UP")).1
        now2 rnd2 c2 (Message.move playerId "DOWN")).1 playerId = some (p.x, p.y) ∧
    storedPos (processMessage
        (processMessage s now1 rnd1 c1 (Message.move playerId "LEFT")).1
        now2 rnd2 c2 (Message.move playerId "RIGHT")).1 playerId = some (p.x, p.y) := by
  have hW : MAZE_WIDTH = 10 := rfl
  have hH : MAZE_HEIGHT = 10 := rfl
  rw [hW] at hx
  rw [hH] at hy
  have back : ∀ (d1 d2 : Direction),
      InGrid (candidate p.x p.y d1).1 (candidate p.x p.y d1).2 →
      candidate (candidate p.x p.y d1).1 (candidate p.x p.y d1).2 d2 = (p.x, p.y) →
      storedPos (processMove (processMove s now1 rnd1 playerId d1).1 now2 rnd2 playerId d2).1
        playerId = some (p.x, p.y) := by
    intro d1 d2 hin hback
    obtain ⟨q1, f1, x1, y1⟩ := processMove_find_pos h now1 rnd1 d1
    obtain ⟨q2, f2, x2, y2⟩ := processMove_find_pos f1 now2 rnd2 d2
    obtain ⟨e1, e2⟩ := @applyMove_of_valid p d1 hin
    have hq1 : candidate q1.x q1.y d2 = (p.x, p.y) := by
      rw [x1, y1, e1, e2, hback]
    have hin2 : InGrid (candidate q1.x q1.y d2).1 (candidate q1.x q1.y d2).2 := by
      rw [hq1]
      simp only [InGrid, hW, hH]
      omega
    obtain ⟨e3, e4⟩ := @applyMove_of_valid q1 d2 hin2
    simp only [storedPos, f2, Option.map_some', x2, y2, e3, e4, hq1]
  have hUP : stringToDirection "UP" = Direction.UP := by decide
  have hDOWN : stringToDirection "DOWN" = Direction.DOWN := by decide
  have hLEFT : stringToDirection "LEFT" = Direction.LEFT := by decide
  have hRIGHT : stringToDirection "RIGHT" = Direction.RIGHT := by decide
  simp only [processMessage, hUP, hDOWN, hLEFT, hRIGHT]
  constructor
  · apply back Direction.UP Direction.DOWN
    · simp only [candidate, InGrid, hW, hH]
      omega
    · simp only [candidate, Prod.mk.injEq, true_and]
      omega
  · apply back Direction.LEFT Direction.RIGHT
    · simp only [candidate, InGrid, hW, hH]
      omega
    · simp only [candidate, Prod.mk.injEq, and_true]
      omega

theorem C14_there_and_back_witness :
    storedPos (processMessage
        (processMessage (run (initial ⟨5, 3⟩ 0)
          [Event.frame 0 ⟨5, 4⟩ ⟨7, 7, -1⟩ (Message.join "alice")]).1
          1 ⟨9, 9⟩ ⟨7, 7, -1⟩ (Message.move 1 "UP")).1
        2 ⟨5, 4⟩ ⟨7, 7, -1⟩ (Message.move 1 "DOWN")).1 1 = some (5, 4) ∧
    storedPos (processMessage
        (processMessage (run (initial ⟨5, 3⟩ 0)
          [Event.frame 0 ⟨5, 4⟩ ⟨7, 7, -1⟩ (Message.join "alice")]).1
          1 ⟨9, 9⟩ ⟨7, 7, -1⟩ (Message.move 1 "LEFT")).1
        2 ⟨5, 4⟩ ⟨7, 7, -1⟩ (Message.move 1 "RIGHT")).1 1 = some (5, 4) :=
  C14_there_and_back _ 1 2 ⟨9, 9⟩ ⟨5, 4⟩ ⟨7, 7, -1⟩ ⟨7, 7, -1⟩ 1 ⟨1, "alice", 5, 4, 0, 0⟩
    (by decide) (by decide) (by decide)

/-! ## Registry and peer bindings -/

/-- C16: in every state reached from the initial state by JOIN frames, MOVE
frames and inactivity sweeps, the registry and the client map hold the same
identities, each exactly once: a player is registered under an identity if and
only if a peer binding exists for it. -/
theorem C16_registry_matches_bindings (t0 : Position) (t : TimePoint) (evs : List Event) :
    mapKeys (run (initial t0 t) evs).1.players = mapKeys (run (initial t0 t) evs).1.clients ∧
      (mapKeys (run (initial t0 t) evs).1.players).Nodup ∧
      (mapKeys (run (initial t0 t) evs).1.clients).Nodup ∧
      ∀ id : Int, (∃ p, mapFind id (run (initial t0 t) evs).1.players = some p) ↔
        (∃ c, getClient (run (initial t0 t) evs).1.clients id = some c) := by
  have wf := wellFormed_run (wellFormed_initial t0 t) evs
  have nd : ∀ (γ : Type) (m : List (Int × γ)), KeysAscending m → (mapKeys m).Nodup := by
    intro γ m hm
    simp only [mapKeys, List.Nodup, List.pairwise_map]
    exact List.Pairwise.imp (fun hab => ne_of_lt hab) hm
  refine ⟨wf.sameKeys, nd _ _ wf.playersAsc, nd _ _ wf.clientsAsc, ?_⟩
  intro id
  have hk := @mapFind_of_keys_eq Player ClientInfo id _ _ wf.sameKeys
  simp only [getClient]
  constructor
  · rintro ⟨p, hp⟩
    cases hc : mapFind id (run (initial t0 t) evs).1.clients with
    | none => rw [hk.2 hc] at hp; cases hp
    | some c => exact ⟨c, rfl⟩
  · rintro ⟨c, hc⟩
    cases hp : mapFind id (run (initial t0 t) evs).1.players with
    | none => rw [hk.1 hp] at hc; cases hc
    | some p => exact ⟨p, rfl⟩

/-! ## The client decodes the score snapshot -/

theorem mapSet_of_all_lt {α : Type} {k : Int} (v : α) {m : List (Int × α)}
    (h : ∀ e ∈ m, e.1 < k) : mapSet k v m = m ++ [(k, v)] := by
  induction m with
  | nil => rfl
  | cons a rest ih =>
    obtain ⟨k', v'⟩ := a
    have h1 : k' < k := h (k', v') (List.mem_cons_self _ _)
    have h2 : ¬ k < k' := by omega
    have h3 : ¬ k = k' := by omega
    simp only [mapSet, h2, h3, if_false, List.cons_append, List.cons.injEq, true_and]
    exact ih (fun e he => h e (List.mem_cons_of_mem _ he))

theorem foldl_mapSet_of_ascending (pairs m : List (Int × Int))
    (h : KeysAscending (m ++ pairs)) :
    pairs.foldl (fun acc e => mapSet e.1 e.2 acc) m = m ++ pairs := by
  induction pairs generalizing m with
  | nil => simp
  | cons a rest ih =>
    have hp := List.pairwise_append.1 h
    have hlt : ∀ e ∈ m, e.1 < a.1 := fun e he => hp.2.2 e he a (List.mem_cons_self _ _)
    rw [List.foldl_cons, mapSet_of_all_lt a.2 hlt]
    have h' : KeysAscending ((m ++ [(a.1, a.2)]) ++ rest) := by
      simpa [KeysAscending, List.append_assoc] using h
    rw [ih _ h']
    simp

theorem readScores_pairToks (pairs m : List (Int × Int)) :
    readScores pairs.length (pairToks pairs) m =
      some (pairs.foldl (fun acc e => mapSet e.1 e.2 acc) m) := by
  induction pairs generalizing m with
  | nil => rfl
  | cons a rest ih =>
    obtain ⟨i, sc⟩ := a
    simp only [List.length_cons, pairToks, readScores, List.foldl_cons]
    exact ih _

theorem scorePairs_ascending {s : GameServer} (wf : WellFormed s) :
    KeysAscending (scorePairs s.players) := by
  simp only [KeysAscending, scorePairs, List.pairwise_map]
  refine List.Pairwise.imp_of_mem ?_ wf.playersAsc
  intro a b ha hb hab
  rw [wf.playerIds a ha, wf.playerIds b hb]
  exact hab

theorem mem_scorePairs_iff {s : GameServer} (wf : WellFormed s) (id sc : Int) :
    (id, sc) ∈ scorePairs s.players ↔ ∃ p, mapFind id s.players = some p ∧ p.score = sc := by
  simp only [scorePairs, List.mem_map, Prod.mk.injEq]
  constructor
  · rintro ⟨e, he, hid, hsc⟩
    refine ⟨e.2, ?_, hsc⟩
    rw [← hid, wf.playerIds e he]
    exact mapFind_of_mem wf.playersAsc he
  · rintro ⟨p, hp, hsc⟩
    exact ⟨(id, p), mapFind_mem hp, wf.playerIds _ (mapFind_mem hp), hsc⟩

/-- C17: in every reachable state each datagram of `broadcastScores` carries
the frame built from the registry, and the client's `processServerMessage`,
started from any client state, decodes that frame into a score map whose
entries are exactly the registry's (identity, score) pairs, one per
registered player; the other client fields are untouched. -/
theorem C17_client_decodes_scores (s : GameServer) (hs : Reachable s) (c : GameClient) :
    (∀ d ∈ broadcastScores s, d.2 = scoresMsg s.players) ∧
    ∃ c', processServerMessage c (scoresMsg s.players) = some c' ∧
      c' = { c with playerScores := c'.playerScores } ∧
      KeysAscending c'.playerScores ∧
      c'.playerScores.length = s.players.length ∧
      ∀ (id sc : Int), mapFind id c'.playerScores = some sc ↔
        ∃ p, mapFind id s.players = some p ∧ p.score = sc := by
  have wf := wellFormed_of_reachable hs
  have hasc := scorePairs_ascending wf
  constructor
  · intro d hd
    simp only [broadcastScores, broadcastMessage, List.mem_map] at hd
    obtain ⟨e, _, rfl⟩ := hd
    rfl
  · have hlen : ((s.players.length : Int)).toNat = (scorePairs s.players).length := by
      simp [scorePairs]
    have hdec : processServerMessage c (scoresMsg s.players) =
        some { c with playerScores := scorePairs s.players } := by
      simp only [processServerMessage, scoresMsg, handleScoresUpdate]
      rw [hlen, readScores_pairToks, foldl_mapSet_of_ascending _ [] (by simpa using hasc)]
      simp
    refine ⟨_, hdec, rfl, hasc, by simp [scorePairs], ?_⟩
    intro id sc
    rw [← mem_scorePairs_iff wf]
    simp only
    constructor
    · exact mapFind_mem
    · exact mapFind_of_mem hasc

theorem C17_client_decodes_scores_witness :
    processServerMessage ⟨true, "carol", 2, 3, 3, 0, ⟨5, 5⟩, [(1, 7), (9, 9)]⟩
      (scoresMsg (run (initial ⟨5, 5⟩ 0)
        [Event.frame 0 ⟨5, 4⟩ ⟨7, 7, -1⟩ (Message.join "alice"),
         Event.frame 1 ⟨3, 3⟩ ⟨8, 8, -1⟩ (Message.join "bob"),
         Event.frame 2 ⟨9, 9⟩ ⟨7, 7, -1⟩ (Message.move 1 "DOWN")]).1.players) =
      some ⟨true, "carol", 2, 3, 3, 0, ⟨5, 5⟩, [(1, 1), (2, 0)]⟩ ∧
    ((∀ d ∈ broadcastScores (run (initial ⟨5, 5⟩ 0)
        [Event.frame 0 ⟨5, 4⟩ ⟨7, 7, -1⟩ (Message.join "alice"),
         Event.frame 1 ⟨3, 3⟩ ⟨8, 8, -1⟩ (Message.join "bob"),
         Event.frame 2 ⟨9, 9⟩ ⟨7, 7, -1⟩ (Message.move 1 "DOWN")]).1,
        d.2 = scoresMsg (run (initial ⟨5, 5⟩ 0)
          [Event.frame 0 ⟨5, 4⟩ ⟨7, 7, -1⟩ (Message.join "alice"),
           Event.frame 1 ⟨3, 3⟩ ⟨8, 8, -1⟩ (Message.join "bob"),
           Event.frame 2 ⟨9, 9⟩ ⟨7, 7, -1⟩ (Message.move 1 "DOWN")]).1.players) ∧
    ∃ c', processServerMessage ⟨true, "carol", 2, 3, 3, 0, ⟨5, 5⟩, [(1, 7), (9, 9)]⟩
        (scoresMsg (run (initial ⟨5, 5⟩ 0)
          [Event.frame 0 ⟨5, 4⟩ ⟨7, 7, -1⟩ (Message.join "alice"),
           Event.frame 1 ⟨3, 3⟩ ⟨8, 8, -1⟩ (Message.join "bob"),
           Event.frame 2 ⟨9, 9⟩ ⟨7, 7, -1⟩ (Message.move 1 "DOWN")]).1.players) = some c' ∧
      c' = { (⟨true, "carol", 2, 3, 3, 0, ⟨5, 5⟩, [(1, 7), (9, 9)]⟩ : GameClient) with
        playerScores := c'.playerScores } ∧
      KeysAscending c'.playerScores ∧
      c'.playerScores.length = (run (initial ⟨5, 5⟩ 0)
        [Event.frame 0 ⟨5, 4⟩ ⟨7, 7, -1⟩ (Message.join "alice"),
         Event.frame 1 ⟨3, 3⟩ ⟨8, 8, -1⟩ (Message.join "bob"),
         Event.frame 2 ⟨9, 9⟩ ⟨7, 7, -1⟩ (Message.move 1 "DOWN")]).1.players.length ∧
      ∀ (id sc : Int), mapFind id c'.playerScores = some sc ↔
        ∃ p, mapFind id (run (initial ⟨5, 5⟩ 0)
          [Event.frame 0 ⟨5, 4⟩ ⟨7, 7, -1⟩ (Message.join "alice"),
           Event.frame 1 ⟨3, 3⟩ ⟨8, 8, -1⟩ (Message.join "bob"),
           Event.frame 2 ⟨9, 9⟩ ⟨7, 7, -1⟩ (Message.move 1 "DOWN")]).1.players = some p ∧
          p.score = sc) :=
  ⟨by decide,
    C17_client_decodes_scores _ ⟨⟨5, 5⟩, 0, _, rfl⟩
      ⟨true, "carol", 2, 3, 3, 0, ⟨5, 5⟩, [(1, 7), (9, 9)]⟩⟩

/-! ## An evicted player stays out -/

theorem pairToks_injective {a b : List (Int × Int)} (h : pairToks a = pairToks b) : a = b := by
  induction a generalizing b with
  | nil =>
    cases b with
    | nil => rfl
    | cons y ys => obtain ⟨i, sc⟩ := y; simp [pairToks] at h
  | cons x xs ih =>
    obtain ⟨i, sc⟩ := x
    cases b with
    | nil => simp [pairToks] at h
    | cons y ys =>
      obtain ⟨j, sd⟩ := y
      simp only [pairToks, List.cons.injEq, Tok.num.injEq] at h
      obtain ⟨h1, h2, h3⟩ := h
      rw [h1, h2, ih h3]

/-- Every datagram of `processMove` goes to a peer of the client map. -/
theorem processMove_recipients (s : GameServer) (now : TimePoint) (rnd : Position)
    (playerId : Int) (dir : Direction) :
    ∀ d ∈ (processMove s now rnd playerId dir).2, ∃ e ∈ s.clients, d.1 = e.2 := by
  intro d hd
  cases h : mapFind playerId s.players with
  | none => simp [processMove_of_none h] at hd
  | some p =>
    rw [processMove_of_find h] at hd
    have hpos : ∀ (f : Frame), ∀ d ∈ sendIfBound (getClient s.clients p.id) f,
        ∃ e ∈ s.clients, d.1 = e.2 := by
      intro f d hd
      cases hg : getClient s.clients p.id with
      | none => simp [sendIfBound, hg] at hd
      | some c =>
        simp only [sendIfBound, hg, List.mem_singleton] at hd
        subst hd
        exact ⟨(p.id, c), mapFind_mem hg, rfl⟩
    by_cases hC : (applyMove p dir).x = s.treasure.x ∧ (applyMove p dir).y = s.treasure.y
    · rw [moveFound_out_pickup s now rnd playerId p dir hC] at hd
      simp only [List.mem_append, broadcastMessage, List.mem_map] at hd
      rcases hd with ((hd | ⟨e, he, rfl⟩) | ⟨e, he, rfl⟩) | ⟨e, he, rfl⟩
      · exact hpos _ d hd
      · exact ⟨e, he, rfl⟩
      · exact ⟨e, he, rfl⟩
      · exact ⟨e, he, rfl⟩
    · rw [moveFound_out_noPickup s now rnd playerId p dir hC] at hd
      exact hpos _ d hd

/-- Every SCORES frame of `processMove` is the snapshot of the registry it
leaves behind. -/
theorem processMove_scores_frames (s : GameServer) (now : TimePoint) (rnd : Position)
    (playerId : Int) (dir : Direction) :
    ∀ d ∈ (processMove s now rnd playerId dir).2, d.2.head? = some (Tok.word "SCORES") →
      d.2 = scoresMsg (processMove s now rnd playerId dir).1.players := by
  intro d hd hhead
  cases h : mapFind playerId s.players with
  | none => simp [processMove_of_none h] at hd
  | some p =>
    rw [processMove_of_find h] at hd ⊢
    have hpos : ∀ d ∈ sendIfBound (getClient s.clients p.id)
        [Tok.word "POS", Tok.num p.id, Tok.num (applyMove p dir).x,
          Tok.num (applyMove p dir).y], d.2.head? ≠ some (Tok.word "SCORES") := by
      intro d hd
      cases hg : getClient s.clients p.id with
      | none => simp [sendIfBound, hg] at hd
      | some c =>
        simp only [sendIfBound, hg, List.mem_singleton] at hd
        subst hd
        simp
    by_cases hC : (applyMove p dir).x = s.treasure.x ∧ (applyMove p dir).y = s.treasure.y
    · rw [moveFound_out_pickup s now rnd playerId p dir hC] at hd
      simp only [List.mem_append, broadcastMessage, List.mem_map] at hd
      rcases hd with ((hd | ⟨e, he, rfl⟩) | ⟨e, he, rfl⟩) | ⟨e, he, rfl⟩
      · exact absurd hhead (hpos d hd)
      · simp at hhead
      · simp at hhead
      · rfl
    · rw [moveFound_out_noPickup s now rnd playerId p dir hC] at hd
      exact absurd hhead (hpos d hd)

/-- Every datagram of a sweep goes to a peer the client map held before it. -/
theorem checkInactivePlayers_recipients {s : GameServer} (wf : WellFormed s)
    (now : TimePoint) :
    ∀ d ∈ (checkInactivePlayers s now).2, ∃ e ∈ s.clients, d.1 = e.2 := by
  intro d hd
  have hnd := playersToRemove_nodup wf.playersAsc wf.playerIds now
  simp only [checkInactivePlayers] at hd
  rw [foldl_removePlayer_out _ hnd] at hd
  simp only [List.nil_append, List.mem_flatten, List.mem_map] at hd
  obtain ⟨l, ⟨j, _, rfl⟩, hdl⟩ := hd
  cases hg : getClient s.clients j with
  | none => simp [sendIfBound, hg] at hdl
  | some c =>
    simp only [sendIfBound, hg, List.mem_singleton] at hdl
    subst hdl
    exact ⟨(j, c), mapFind_mem hg, rfl⟩

/-- Every datagram of a step goes to a peer bound before or after the step. -/
theorem step_recipients {s : GameServer} (wf : WellFormed s) (ev : Event) :
    ∀ d ∈ (step s ev).2,
      (∃ e ∈ s.clients, d.1 = e.2) ∨ (∃ e ∈ (step s ev).1.clients, d.1 = e.2) := by
  intro d hd
  cases ev with
  | frame now rnd clientInfo msg =>
    cases msg with
    | join username =>
      right
      simp only [step, processMessage, broadcastScores, broadcastMessage, List.mem_append,
        List.mem_cons, List.mem_singleton, List.mem_map, List.not_mem_nil, or_false] at hd ⊢
      rcases hd with (rfl | rfl) | ⟨e, he, rfl⟩
      · exact ⟨_, mem_mapSet_self _ _ _, rfl⟩
      · exact ⟨_, mem_mapSet_self _ _ _, rfl⟩
      · exact ⟨e, he, rfl⟩
    | move playerId dirStr => exact Or.inl (processMove_recipients s now rnd playerId _ d hd)
    | other => simp [step, processMessage] at hd
  | sweep now => exact Or.inl (checkInactivePlayers_recipients wf now d hd)

/-- Every SCORES frame of a step is the snapshot of the registry after it. -/
theorem step_scores_frames (s : GameServer) (ev : Event) :
    ∀ d ∈ (step s ev).2, d.2.head? = some (Tok.word "SCORES") →
      d.2 = scoresMsg (step s ev).1.players := by
  intro d hd hhead
  cases ev with
  | frame now rnd clientInfo msg =>
    cases msg with
    | join username =>
      simp only [step, processMessage, broadcastScores, broadcastMessage, List.mem_append,
        List.mem_cons, List.mem_singleton, List.mem_map, List.not_mem_nil, or_false] at hd ⊢
      rcases hd with (rfl | rfl) | ⟨e, he, rfl⟩
      · simp [welcomeMsg] at hhead
      · simp [treasureMsg] at hhead
      · rfl
    | move playerId dirStr => exact processMove_scores_frames s now rnd playerId _ d hd hhead
    | other => simp [step, processMessage] at hd
  | sweep now =>
    have hk := checkInactivePlayers_out_kick s now d hd
    rw [hk] at hhead
    simp [kickMsg] at hhead

theorem gone_step {id : Int} {s : GameServer} (g : Gone id s) (ev : Event) :
    Gone id (step s ev).1 := by
  obtain ⟨wf, hnone, hlt⟩ := g
  refine ⟨wellFormed_step wf ev, ?_, ?_⟩
  · cases ev with
    | frame now rnd clientInfo msg =>
      cases msg with
      | join username =>
        simp only [step, processMessage, Player.create]
        rw [mapFind_mapSet_ne (ne_of_lt hlt)]
        exact hnone
      | move playerId dirStr =>
        simp only [step, processMessage]
        cases h : mapFind playerId s.players with
        | none => rw [processMove_of_none h]; exact hnone
        | some p =>
          have hne : id ≠ playerId := by
            intro e
            rw [e, h] at hnone
            cases hnone
          rw [processMove_of_find h]
          rcases moveFound_state s now rnd playerId p (stringToDirection dirStr) with
            ⟨_, _, hs⟩ | ⟨_, hs⟩
          · rw [hs]
            simp only
            rw [mapFind_mapSet_ne hne]
            exact hnone
          · rw [hs]
            simp only
            rw [mapFind_mapSet_ne hne]
            exact hnone
      | other => exact hnone
    | sweep now =>
      simp only [step, checkInactivePlayers_state]
      rw [mapFind_eq_none_iff] at hnone ⊢
      intro e he
      exact hnone e (List.mem_filter.1 he).1
  · rcases step_welcome s ev with ⟨_, _, hn⟩ | ⟨_, _, hn⟩
    · rw [hn]; omega
    · rw [hn]; exact hlt

/-- Nothing is addressed to an identity without a registry entry. -/
theorem gone_not_recipient {id : Int} {s : GameServer} (g : Gone id s) :
    ∀ e ∈ s.clients, e.2.playerId ≠ id := by
  intro e he hid
  obtain ⟨wf, hnone, _⟩ := g
  have hk : e.1 = id := by rw [← wf.clientIds e he, hid]
  have hc : mapFind id s.clients = none := (mapFind_of_keys_eq wf.sameKeys).1 hnone
  rw [mapFind_eq_none_iff] at hc
  exact hc e he hk

theorem gone_not_listed {id : Int} {s : GameServer} (g : Gone id s) (sc : Int) :
    (id, sc) ∉ scorePairs s.players := by
  obtain ⟨wf, hnone, _⟩ := g
  intro hmem
  obtain ⟨p, hp, _⟩ := (mem_scorePairs_iff wf id sc).1 hmem
  rw [hp] at hnone
  cases hnone

/-- From a state in which `id` has left, no run registers it again, addresses
a datagram to it, or lists it in a SCORES frame. -/
theorem gone_run {id : Int} {s : GameServer} (g : Gone id s) (evs : List Event) :
    Gone id (run s evs).1 ∧
      (∀ d ∈ (run s evs).2, d.1.playerId ≠ id) ∧
      (∀ d ∈ (run s evs).2, ∀ (n : Int) (pairs : List (Int × Int)) (sc : Int),
        d.2 = Tok.word "SCORES" :: Tok.num n :: pairToks pairs → (id, sc) ∉ pairs) := by
  induction evs generalizing s with
  | nil => exact ⟨g, by simp [run], by simp [run]⟩
  | cons ev es ih =>
    have g1 := gone_step g ev
    obtain ⟨ih1, ih2, ih3⟩ := ih g1
    refine ⟨ih1, ?_, ?_⟩
    · intro d hd
      simp only [run, List.mem_append] at hd
      rcases hd with hd | hd
      · rcases step_recipients g.1 ev d hd with ⟨e, he, hde⟩ | ⟨e, he, hde⟩
        · rw [hde]; exact gone_not_recipient g e he
        · rw [hde]; exact gone_not_recipient g1 e he
      · exact ih2 d hd
    · intro d hd n pairs sc hframe
      simp only [run, List.mem_append] at hd
      rcases hd with hd | hd
      · have hs := step_scores_frames s ev d hd (by rw [hframe]; rfl)
        rw [hframe] at hs
        simp only [scoresMsg, List.cons.injEq, true_and] at hs
        rw [pairToks_injective hs.2]
        exact gone_not_listed g1 sc
      · exact ih3 d hd n pairs sc hframe

/-- C15: a sweep that evicts a registered player sends that player's peer
exactly one KICK frame, and in every state reached afterwards by JOIN frames,
MOVE frames and sweeps the player is absent from the registry and from the peer
bindings, no datagram (so no further KICK) is addressed to the player, and no
SCORES frame lists the player's identity. -/
theorem C15_evicted_once_and_gone (s : GameServer) (hs : Reachable s) (now : TimePoint)
    (playerId : Int) (p : Player)
    (h : mapFind playerId s.players = some p)
    (hev : mapFind playerId (checkInactivePlayers s now).1.players = none) :
    ∃ c, getClient s.clients playerId = some c ∧
      (checkInactivePlayers s now).2.filter (fun d => decide (d.1.playerId = playerId)) =
        [(c, [Tok.word "KICK", Tok.word "Inactivity", Tok.word "timeout"])] ∧
      ∀ evs : List Event,
        mapFind playerId (run (checkInactivePlayers s now).1 evs).1.players = none ∧
        getClient (run (checkInactivePlayers s now).1 evs).1.clients playerId = none ∧
        (∀ d ∈ (run (checkInactivePlayers s now).1 evs).2, d.1.playerId ≠ playerId) ∧
        (∀ d ∈ (run (checkInactivePlayers s now).1 evs).2,
          ∀ (n : Int) (pairs : List (Int × Int)) (sc : Int),
            d.2 = Tok.word "SCORES" :: Tok.num n :: pairToks pairs →
              (playerId, sc) ∉ pairs) := by
  have wf := wellFormed_of_reachable hs
  obtain ⟨_, c, hc, _⟩ := wf.bound h
  have hnd := playersToRemove_nodup wf.playersAsc wf.playerIds now
  have hin : playerId ∈ playersToRemove s.players now := by
    by_contra hnin
    have hq : (fun j : Int => decide (j ∉ playersToRemove s.players now)) playerId = true := by
      simpa using hnin
    rw [checkInactivePlayers_state] at hev
    have := mapFind_filter_keep (fun j => decide (j ∉ playersToRemove s.players now)) hq
      s.players
    simp only at hev
    rw [this, h] at hev
    cases hev
  have hout : (checkInactivePlayers s now).2 =
      ((playersToRemove s.players now).map
        (fun j => sendIfBound (getClient s.clients j) kickMsg)).flatten := by
    simp only [checkInactivePlayers]
    rw [foldl_removePlayer_out _ hnd]
    simp
  have g : Gone playerId (checkInactivePlayers s now).1 := by
    refine ⟨wellFormed_checkInactivePlayers wf now, hev, ?_⟩
    have hb := (wf.keysBelow _ (mapFind_mem h)).2
    rw [checkInactivePlayers_state]
    exact hb
  refine ⟨c, hc, ?_, ?_⟩
  · rw [hout]
    exact kicks_filter_of_mem wf.clientIds hnd hin hc
  · intro evs
    obtain ⟨g', h2, h3⟩ := gone_run g evs
    refine ⟨g'.2.1, ?_, h2, h3⟩
    exact (mapFind_of_keys_eq g'.1.sameKeys).1 g'.2.1

theorem C15_evicted_once_and_gone_witness :
    ∃ c, getClient (run (initial ⟨5, 5⟩ 0)
        [Event.frame 0 ⟨5, 4⟩ ⟨7, 7, -1⟩ (Message.join "alice")]).1.clients 1 = some c ∧
      (checkInactivePlayers (run (initial ⟨5, 5⟩ 0)
        [Event.frame 0 ⟨5, 4⟩ ⟨7, 7, -1⟩ (Message.join "alice")]).1
        11000000000).2.filter (fun d => decide (d.1.playerId = 1)) =
        [(c, [Tok.word "KICK", Tok.word "Inactivity", Tok.word "timeout"])] ∧
      ∀ evs : List Event,
        mapFind 1 (run (checkInactivePlayers (run (initial ⟨5, 5⟩ 0)
          [Event.frame 0 ⟨5, 4⟩ ⟨7, 7, -1⟩ (Message.join "alice")]).1
          11000000000).1 evs).1.players = none ∧
        getClient (run (checkInactivePlayers (run (initial ⟨5, 5⟩ 0)
          [Event.frame 0 ⟨5, 4⟩ ⟨7, 7, -1⟩ (Message.join "alice")]).1
          11000000000).1 evs).1.clients 1 = none ∧
        (∀ d ∈ (run (checkInactivePlayers (run (initial ⟨5, 5⟩ 0)
          [Event.frame 0 ⟨5, 4⟩ ⟨7, 7, -1⟩ (Message.join "alice")]).1
          11000000000).1 evs).2, d.1.playerId ≠ 1) ∧
        (∀ d ∈ (run (checkInactivePlayers (run (initial ⟨5, 5⟩ 0)
          [Event.frame 0 ⟨5, 4⟩ ⟨7, 7, -1⟩ (Message.join "alice")]).1
          11000000000).1 evs).2,
          ∀ (n : Int) (pairs : List (Int × Int)) (sc : Int),
            d.2 = Tok.word "SCORES" :: Tok.num n :: pairToks pairs → ((1 : Int), sc) ∉ pairs) :=
  C15_evicted_once_and_gone _ ⟨⟨5, 5⟩, 0, _, rfl⟩ 11000000000 1 ⟨1, "alice", 5, 4, 0, 0⟩
    (by decide) (by decide)

end MazeGame
